import Mathlib

/-!
Verification of the ActivityStreams 1 normalization core (`granary/as1.py`)
of the activitystreams-unofficial repository.

The Python data are schema-less nested JSON records.  They are embedded as
the inductive `AVal`; Python dicts are association lists with unique keys
(`Dict`), reads and updates follow Python dict semantics (updates keep a
key's position, new keys append at the end, matching insertion order).
Values are compared with Lean equality, which models Python equality for
records whose key insertion order matches.  Python exceptions are modelled
as `Except.error`.  Helper functions of the external `oauth_dropins.webutil`
dependency are not part of the repository source; they are modelled from the
spec and marked as such in their doc comments.
-/

namespace AS1

/-- A schema-less JSON-ish value: string, integer, boolean, null, record
(association list in insertion order) or array. -/
inductive AVal where
  | s (v : String)
  | n (v : Int)
  | b (v : Bool)
  | nul
  | d (kvs : List (String × AVal))
  | l (vs : List AVal)
deriving Repr

namespace AVal

mutual

def beq : AVal → AVal → Bool
  | s x, s y => x == y
  | n x, n y => x == y
  | b x, b y => x == y
  | nul, nul => true
  | d kvs1, d kvs2 => beqD kvs1 kvs2
  | l vs1, l vs2 => beqL vs1 vs2
  | _, _ => false

def beqD : List (String × AVal) → List (String × AVal) → Bool
  | [], [] => true
  | (k1, v1) :: r1, (k2, v2) :: r2 => k1 == k2 && beq v1 v2 && beqD r1 r2
  | _, _ => false

def beqL : List AVal → List AVal → Bool
  | [], [] => true
  | v1 :: r1, v2 :: r2 => beq v1 v2 && beqL r1 r2
  | _, _ => false

end

mutual

theorem beq_refl : ∀ (a : AVal), beq a a = true
  | s x => by simp [beq]
  | n x => by simp [beq]
  | b x => by simp [beq]
  | nul => by simp [beq]
  | d kvs => by simp [beq, beqD_refl kvs]
  | l vs => by simp [beq, beqL_refl vs]

theorem beqD_refl : ∀ (kvs : List (String × AVal)), beqD kvs kvs = true
  | [] => by simp [beqD]
  | (k, v) :: r => by simp [beqD, beq_refl v, beqD_refl r]

theorem beqL_refl : ∀ (vs : List AVal), beqL vs vs = true
  | [] => by simp [beqL]
  | v :: r => by simp [beqL, beq_refl v, beqL_refl r]

end

mutual

theorem eq_of_beq : ∀ {a c : AVal}, beq a c = true → a = c
  | s x, c, h => by cases c <;> simp_all [beq]
  | n x, c, h => by cases c <;> simp_all [beq]
  | b x, c, h => by cases c <;> simp_all [beq]
  | nul, c, h => by cases c <;> simp_all [beq]
  | d kvs1, c, h => by
      cases c with
      | d kvs2 => exact congrArg AVal.d (eqD_of_beqD (by simpa [beq] using h))
      | _ => simp_all [beq]
  | l vs1, c, h => by
      cases c with
      | l vs2 => exact congrArg AVal.l (eqL_of_beqL (by simpa [beq] using h))
      | _ => simp_all [beq]

theorem eqD_of_beqD : ∀ {x y : List (String × AVal)}, beqD x y = true → x = y
  | [], [], _ => rfl
  | [], _ :: _, h => by simp [beqD] at h
  | _ :: _, [], h => by simp [beqD] at h
  | (k1, v1) :: r1, (k2, v2) :: r2, h => by
      simp only [beqD, Bool.and_eq_true, beq_iff_eq] at h
      obtain ⟨⟨hk, hv⟩, hr⟩ := h
      rw [hk, eq_of_beq hv, eqD_of_beqD hr]

theorem eqL_of_beqL : ∀ {x y : List AVal}, beqL x y = true → x = y
  | [], [], _ => rfl
  | [], _ :: _, h => by simp [beqL] at h
  | _ :: _, [], h => by simp [beqL] at h
  | v1 :: r1, v2 :: r2, h => by
      simp only [beqL, Bool.and_eq_true] at h
      obtain ⟨hv, hr⟩ := h
      rw [eq_of_beq hv, eqL_of_beqL hr]

end

instance : DecidableEq AVal := fun a c =>
  decidable_of_iff (beq a c = true) ⟨eq_of_beq, fun h => h ▸ beq_refl a⟩

end AVal

deriving instance DecidableEq for Except

/-- A Python dict: association list in key insertion order, unique keys. -/
abbrev Dict := List (String × AVal)

/-- Python d.get(k): the value at a key, None (here: Option.none) if absent. -/
def dget : Dict → String → Option AVal
  | [], _ => none
  | (k', v) :: rest, k => if k' == k then some v else dget rest k

/-- Python `k in d`. -/
def dmem : Dict → String → Bool
  | [], _ => false
  | (k', _) :: rest, k => k' == k || dmem rest k

/-- Python d[k] = v: an existing key keeps its position, a new key appends. -/
def dset (kvs : Dict) (k : String) (v : AVal) : Dict :=
  if dmem kvs k then kvs.map (fun p => if p.1 == k then (k, v) else p)
  else kvs ++ [(k, v)]

/-- Python d.pop(k, None): the dict without the key. -/
def dpop (kvs : Dict) (k : String) : Dict :=
  kvs.filter (fun p => !(p.1 == k))

/-- Python truthiness of a value. -/
def truthy : AVal → Bool
  | .s x => !(x == "")
  | .n x => !(x == 0)
  | .b x => x
  | .nul => false
  | .d kvs => !kvs.isEmpty
  | .l vs => !vs.isEmpty

/-- Python truthiness of an optional (possibly missing) value. -/
def truthyO : Option AVal → Bool
  | none => false
  | some v => truthy v

/-- A missing value materializes as Python None when stored or passed on. -/
def optToVal : Option AVal → AVal
  | none => .nul
  | some v => v

/-! Character-list string helpers (structural, so that concrete claims can be
settled by kernel evaluation). -/

def strStartsWith (x p : String) : Bool := p.toList.isPrefixOf x.toList

def strEndsWith (x p : String) : Bool := p.toList.isSuffixOf x.toList

def strTrim (x : String) : String :=
  String.mk (((x.toList.dropWhile Char.isWhitespace).reverse.dropWhile
    Char.isWhitespace).reverse)

/-- Splits at the first occurrence of a separator character; none when absent. -/
def splitFirst (sep : Char) : List Char → Option (List Char × List Char)
  | [] => none
  | c :: rest =>
      if c == sep then some ([], rest)
      else match splitFirst sep rest with
        | none => none
        | some (a, z) => some (c :: a, z)

/-- Splits at every occurrence of a separator character. -/
def splitAllAux (sep : Char) : List Char → List Char → List (List Char)
  | [], acc => [acc.reverse]
  | c :: rest, acc =>
      if c == sep then acc.reverse :: splitAllAux sep rest []
      else splitAllAux sep rest (c :: acc)

/-- Whitespace tokenization (no empty tokens). -/
def splitWsAux : List Char → List Char → List (List Char)
  | [], acc => if acc.isEmpty then [] else [acc.reverse]
  | c :: rest, acc =>
      if c.isWhitespace then
        if acc.isEmpty then splitWsAux rest [] else acc.reverse :: splitWsAux rest []
      else splitWsAux rest (c :: acc)

/-- Substring containment test. -/
def containsSubList (needle : List Char) : List Char → Bool
  | [] => needle.isEmpty
  | c :: rest => needle.isPrefixOf (c :: rest) || containsSubList needle rest

def containsSub (hay needle : String) : Bool :=
  containsSubList needle.toList hay.toList

/-- Effectful map over a list (the monadic image of a Python list
comprehension whose body can raise). -/
def mapExc {a c : Type} (f : a → Except String c) : List a → Except String (List c)
  | [] => pure []
  | x :: r => do
      let y ← f x
      let ys ← mapExc f r
      pure (y :: ys)

/-- Python list membership (the `in` operator against a list). -/
def listHas (l : List AVal) (t : AVal) : Bool := l.any (fun x => decide (x = t))

/-! Helpers of the external `oauth_dropins.webutil.util` dependency.  They are
not part of this repository's source tree; each is modelled from the spec. -/

/-- Modelled from the spec (webutil get_list): a field value as a list.  An
absent or falsy value gives the empty list, a list value is returned as is,
any other value is wrapped as a singleton. -/
def get_list (obj : Dict) (field : String) : List AVal :=
  match dget obj field with
  | none => []
  | some v =>
      if truthy v then
        match v with
        | .l vs => vs
        | w => [w]
      else []

/-- Modelled from the spec (webutil get_first): the first element of
get_list, or the default when the list is empty. -/
def get_first (obj : Dict) (field : String) (dflt : AVal) : AVal :=
  match get_list obj field with
  | [] => dflt
  | v :: _ => v

/-- An empty-ish value as removed by webutil trim_nulls. -/
def isNullVal : AVal → Bool
  | .nul => true
  | .s x => x == ""
  | .d kvs => kvs.isEmpty
  | .l vs => vs.isEmpty
  | _ => false

/-- Modelled from the spec (webutil trim_nulls, restricted to a flat list of
optional values as used in is_public): drops missing and empty values. -/
def trim_nulls : List (Option AVal) → List AVal
  | [] => []
  | none :: r => trim_nulls r
  | some v :: r => if isNullVal v then trim_nulls r else v :: trim_nulls r

/-- Modelled from the spec (webutil parse_tag_uri): parses an opaque id of
the form tag:DOMAIN,DATE?:NAME into (domain, name) and fails on malformed
input.  The domain runs to the first colon and may not contain a comma; an
optional ,DATE (digits) before the colon is skipped; domain and name must be
nonempty. -/
def parse_tag_uri (uri : String) : Option (String × String) :=
  match uri.toList with
  | 't' :: 'a' :: 'g' :: ':' :: rest =>
      match splitFirst ':' rest with
      | none => none
      | some (domPart, name) =>
          let dom :=
            match splitFirst ',' domPart with
            | none => if domPart.isEmpty then none else some domPart
            | some (dm, date) =>
                if dm.isEmpty || date.isEmpty || !date.all Char.isDigit then none
                else some dm
          match dom with
          | none => none
          | some dmc =>
              if name.isEmpty then none
              else some (String.mk dmc, String.mk name)
  | _ => none

/-- Modelled from the spec (webutil tag_uri, no date): tag:DOMAIN:NAME. -/
def tag_uri (domain name : String) : String :=
  "tag:" ++ domain ++ ":" ++ name

/-- First-seen-order de-duplication by a key function. -/
def dedupeAux {α β : Type} [DecidableEq β] (key : α → β) : List α → List β → List α
  | [], _ => []
  | x :: rest, seen =>
      if seen.contains (key x) then dedupeAux key rest seen
      else x :: dedupeAux key rest (seen ++ [key x])

/-- Modelled from the spec (webutil dedupe_urls on records or urls):
de-duplication keeps the first occurrence, preserving first-seen order;
records are compared by their url field. -/
def dedupe_key (v : AVal) : AVal :=
  match v with
  | .d kvs =>
      match dget kvs "url" with
      | some u => u
      | none => .d kvs
  | w => w

def dedupe_urls (vs : List AVal) : List AVal := dedupeAux dedupe_key vs []

/-- Modelled from the spec (webutil dedupe_urls on plain url strings). -/
def dedupe_url_strs (us : List String) : List String := dedupeAux id us []

/-- Modelled from the spec (webutil clean_url): strips tracking (utm_) query
parameters; everything else is preserved. -/
def clean_url (u : String) : String :=
  match splitFirst '?' u.toList with
  | none => u
  | some (base, query) =>
      let params := (splitAllAux '&' query []).filter
        (fun p => !("utm_".toList.isPrefixOf p))
      if params.isEmpty then String.mk base
      else String.mk (base ++ '?' :: (params.intersperse ['&']).flatten)

/-- Modelled from the spec (webutil extract_links): link extraction over raw
text, returning the whitespace-separated tokens that start with an http or
https scheme. -/
def extract_links (content : String) : List String :=
  ((splitWsAux content.toList []).filter
    (fun t => "http://".toList.isPrefixOf t || "https://".toList.isPrefixOf t)).map
    String.mk

/-- Modelled from the spec (webutil domain_from_link): the authority part of
an http(s) URL up to the first slash, without port or leading www; empty for
other schemes. -/
def domain_from_link (u : String) : String :=
  let cs := u.toList
  let rest :=
    if "http://".toList.isPrefixOf cs then cs.drop 7
    else if "https://".toList.isPrefixOf cs then cs.drop 8
    else []
  let auth := rest.takeWhile (fun c => !(c == '/'))
  let host :=
    match splitFirst ':' auth with
    | some (h, _) => h
    | none => auth
  let host := if "www.".toList.isPrefixOf host then host.drop 4 else host
  String.mk host

/-- Modelled from the spec (webutil reserved and local TLD tables). -/
def RESERVED_TLDS : List String := ["example", "invalid", "test"]

/-- Modelled from the spec (webutil local-host TLD table). -/
def LOCAL_TLDS : List String := ["local", "localhost"]

/-- Modelled from the spec (webutil domain_or_parent_in): true when the
domain equals or is a subdomain of one of the given domains. -/
def domain_or_parent_in (domain : String) (domains : List String) : Bool :=
  domains.any (fun dm => domain == dm || ("." ++ dm).toList.isSuffixOf domain.toList)

/-! The as1 module itself (`src/granary/as1.py`). -/

/-- Embeds as1.get_object: the field value as an object.  A bare string is
wrapped as an id record, a list contributes its first element, a missing or
falsy value gives the empty record.  A non-record, non-string value is
returned as is, exactly as in the Python code. -/
def get_object (obj : Dict) (field : String) : AVal :=
  if obj.isEmpty then .d []
  else
    let val := get_first obj field (.d [])
    let val := if truthy val then val else .d []
    match val with
    | .s x => .d [("id", .s x)]
    | v => v

/-- Python .get on a value that should be a record; non-records raise
AttributeError. -/
def aget : AVal → String → Except String (Option AVal)
  | .d kvs, field => pure (dget kvs field)
  | _, _ => .error "AttributeError"

/-- Fallback read of the audience in as1.is_public:
get_object(obj).get('to') or [], evaluated only when obj.to is falsy.
The .get raises AttributeError when get_object gives a non-record. -/
def is_public_fallback (obj : Dict) : Except String AVal :=
  match get_object obj "object" with
  | .d kvs =>
      match dget kvs "to" with
      | some v => pure (if truthy v then v else .l [])
      | none => pure (.l [])
  | _ => .error "AttributeError"

/-- The audience read of as1.is_public:
obj.get('to') or get_object(obj).get('to') or [], with the or-chain's lazy
evaluation. -/
def is_public_to (obj : Dict) : Except String AVal :=
  match dget obj "to" with
  | some v => if truthy v then pure v else is_public_fallback obj
  | none => is_public_fallback obj

/-- Embeds as1.is_public: some true when public or unlisted, some false when
only private audiences are named, none when the audience is unknown, and
some true by default.  The audience is obj.to, falling back to the nested
object's audience when obj.to is absent or falsy.  Audience entries that are
not records raise in Python (iterating a truthy non-list audience value also
always reaches such a raise) and are modelled as errors. -/
def is_public (obj : Dict) : Except String (Option Bool) := do
  let toVal ← is_public_to obj
  let ts ← match toVal with
    | AVal.l vs => pure vs
    | _ => Except.error "TypeError"
  let aliases0 ← mapExc (fun t => aget t "alias") ts
  let otypes0 ← mapExc (fun t => aget t "objectType") ts
  let aliases := trim_nulls aliases0
  let otypes := trim_nulls otypes0
  pure (if listHas aliases (.s "@public") || listHas aliases (.s "@unlisted") then
          some true
        else if listHas otypes (.s "unknown") then none
        else if !aliases.isEmpty then some false
        else some true)

/-- Python dict insertion keyed by an id value: an existing key keeps its
position, a new key appends (insertion order). -/
def pdictSet (m : List (AVal × AVal)) (k v : AVal) : List (AVal × AVal) :=
  if m.any (fun p => p.1 == k) then m.map (fun p => if p.1 == k then (k, v) else p)
  else m ++ [(k, v)]

/-- One step of merge_by_id's dict comprehension: key the item by its id
(KeyError on a missing id, TypeError on indexing a non-record). -/
def mergeStep (m : List (AVal × AVal)) (o : AVal) :
    Except String (List (AVal × AVal)) :=
  match o with
  | .d kvs =>
      match dget kvs "id" with
      | some idv => pure (pdictSet m idv o)
      | none => Except.error "KeyError"
  | _ => Except.error "TypeError"

/-- merge_by_id's sort key extraction: itemgetter on the dict key requires a
string id for the lexicographic comparison modelled here. -/
def keyStep (p : AVal × AVal) : Except String (String × AVal) :=
  match p with
  | (.s idv, o) => pure ((idv, o) : String × AVal)
  | _ => Except.error "TypeError"

/-- obj.get(field, []) with the existing-value list requirement: the
starting list for the merge (TypeError when the present value is not a
list, as Python's + concatenation would raise). -/
def merge_olds (obj : Dict) (field : String) : Except String (List AVal) :=
  match dget obj field with
  | none => pure []
  | some (.l vs) => pure vs
  | some _ => Except.error "TypeError"

/-- Embeds as1.merge_by_id: concatenates obj[field] and new, keys the items
by id (later duplicates overwrite earlier ones), and replaces obj[field]
with the values sorted by id.  A non-list field value, items that are not
records or lack an id, and non-string ids are modelled as errors (Python
sorts numeric ids too; only string ids are modelled, and the built dict has
unique keys, so the stable insertion sort used here matches Python sorted). -/
def merge_by_id (obj : Dict) (field : String) (new : List AVal) :
    Except String Dict := do
  let olds ← merge_olds obj field
  let merged ← (olds ++ new).foldlM mergeStep []
  let keyed ← mapExc keyStep merged
  let sortedVals :=
    (keyed.insertionSort (fun x y => x.1 ≤ y.1)).map (fun p => p.2)
  pure (dset obj field (.l sortedVals))

/-- The priority-ordered RSVP verb to event collection field table of as1. -/
def RSVP_VERB_TO_COLLECTION : List (String × String) :=
  [("rsvp-yes", "attending"), ("rsvp-no", "notAttending"),
   ("rsvp-maybe", "maybeAttending"), ("rsvp-interested", "interested"),
   ("invite", "invited")]

/-- RSVP_VERB_TO_COLLECTION.get(rsvp.get('verb')): the collection field for
a verb value; none for unrecognized, missing or non-string hashable verbs
(numbers, booleans and None are hashable but never keys of the table), and
Python's TypeError for unhashable record and list verb values, which dict
lookup rejects. -/
def rsvp_collection (verb : Option AVal) : Except String (Option String) :=
  match verb with
  | some (.s v) =>
      pure ((RSVP_VERB_TO_COLLECTION.find? (fun p => p.1 == v)).map (fun p => p.2))
  | some (.d _) => Except.error "TypeError"
  | some (.l _) => Except.error "TypeError"
  | _ => pure none

/-- Claim-side: Python-hashable values (everything but records and lists),
the values a dict lookup accepts as keys. -/
def hashableVal : AVal → Bool
  | .d _ => false
  | .l _ => false
  | _ => true

/-- Embeds as1.add_rsvps_to_event: appends each recognized RSVP's actor
(object for invite) to the corresponding collection field of the event, in
place, in input order; unrecognized verbs are skipped.  Python's
setdefault(field, []).append raises AttributeError when the existing field
value is not a list; this is modelled as an error. -/
def add_rsvp_step (ev : Dict) (rsvp : Dict) : Except String Dict :=
  match rsvp_collection (dget rsvp "verb") with
  | .error e => .error e
  | .ok none => Except.ok ev
  | .ok (some field) =>
      let entry := optToVal (dget rsvp (if field == "invited" then "object" else "actor"))
      match dget ev field with
      | none => Except.ok (ev ++ [(field, .l [entry])])
      | some (.l vs) => Except.ok (dset ev field (.l (vs ++ [entry])))
      | some _ => Except.error "AttributeError"

def add_rsvps_to_event (event : Dict) (rsvps : List Dict) : Except String Dict :=
  rsvps.foldlM add_rsvp_step event

/-- Python membership test for the string key id in an attendance entry, for
the shapes Python accepts: key test for records, substring test for strings,
element test for lists; numbers, booleans and None raise TypeError. -/
def hasIdKey : AVal → Except String Bool
  | .d kvs => pure (dmem kvs "id")
  | .s x => pure (containsSub x "id")
  | .l vs => pure (vs.contains (.s "id"))
  | _ => .error "TypeError"

/-- The RSVP record synthesized by as1.get_rsvps_from_event for one
attendance entry: objectType activity, the verb, the entry under actor (or
object for invite), the event url; a deterministic id and fragment url when
the entry has a parseable tag-URI id; for invite the event author as actor.
Python exceptions (an entry id that is not a parseable tag-URI string,
indexing id out of a non-record entry, joining a non-string event url) are
modelled as errors. -/
def mk_rsvp (domain event_id : String) (url author : Option AVal) (verb : String)
    (actor : AVal) : Except String AVal := do
  let rsvp0 : Dict :=
    [("objectType", .s "activity"), ("verb", .s verb),
     ((if verb == "invite" then "object" else "actor"), actor),
     ("url", optToVal url)]
  let rsvp1 ←
    if event_id.isEmpty then pure rsvp0
    else do
      let hasId ← hasIdKey actor
      if hasId then do
        let aid ← match actor with
          | .d kvs => pure (optToVal (dget kvs "id"))
          | _ => Except.error "TypeError"
        let aidStr ← match aid with
          | .s x => pure x
          | _ => Except.error "TypeError"
        match parse_tag_uri aidStr with
        | none => Except.error "TypeError"
        | some (_, actor_id) => do
            let r := dset rsvp0 "id"
              (.s (tag_uri domain (event_id ++ "_rsvp_" ++ actor_id)))
            if truthyO url then do
              let u ← match url with
                | some (.s x) => pure x
                | _ => Except.error "TypeError"
              pure (dset r "url" (.s (u ++ "#" ++ actor_id)))
            else pure r
      else pure rsvp0
  let rsvp2 :=
    if verb == "invite" && truthyO author then dset rsvp1 "actor" (optToVal author)
    else rsvp1
  pure (AVal.d rsvp2)

/-- One iteration of the loop over RSVP_VERB_TO_COLLECTION in
get_rsvps_from_event: iterate the collection field's value as Python does
(a missing field iterates the [] default, a list its elements, a string its
characters, a record its keys; None, numbers and booleans are not iterable
and raise TypeError), synthesize an RSVP per entry, and append to the
accumulated list. -/
def get_rsvp_step (event : Dict) (domain event_id : String)
    (url author : Option AVal) (acc : List AVal) (vf : String × String) :
    Except String (List AVal) := do
  let entries ← match dget event vf.2 with
    | none => pure []
    | some (.l vs) => pure vs
    | some (.s x) => pure (x.toList.map (fun c => AVal.s (String.mk [c])))
    | some (.d kvs) => pure (kvs.map (fun p => AVal.s p.1))
    | some _ => Except.error "TypeError"
  let rs ← mapExc (mk_rsvp domain event_id url author vf.1) entries
  pure (acc ++ rs)

/-- Embeds as1.get_rsvps_from_event: synthesizes RSVP activity records from
the event's attendance fields, grouped by verb in priority order.  Returns
[] when the event id is missing, falsy, or fails tag-URI parsing; a
non-string truthy id and iterating a non-iterable attendance value (None, a
number or a boolean) are modelled as errors, while string and record values
iterate per character and per key as in Python. -/
def get_rsvps_from_event (event : Dict) : Except String (List AVal) := do
  let idv := dget event "id"
  if !truthyO idv then pure []
  else do
    let idStr ← match idv with
      | some (.s x) => pure x
      | _ => Except.error "TypeError"
    match parse_tag_uri idStr with
    | none => pure []
    | some (domain, event_id) =>
        RSVP_VERB_TO_COLLECTION.foldlM
          (get_rsvp_step event domain event_id (dget event "url")
            (dget event "author")) ([] : List AVal)

/-- Claim-side: the five collection fields of an event. -/
def rsvpFields : List String :=
  ["attending", "notAttending", "maybeAttending", "interested", "invited"]

/-- Claim-side: the five recognized RSVP verbs. -/
def rsvpVerbs : List String :=
  ["rsvp-yes", "rsvp-no", "rsvp-maybe", "rsvp-interested", "invite"]

/-- Claim-side: the four attendance verbs (invite excluded). -/
def fourVerbs : List String :=
  ["rsvp-yes", "rsvp-no", "rsvp-maybe", "rsvp-interested"]

/-- Claim-side: the list stored under a field, empty when absent or not a
list. -/
def fieldList (ev : Dict) (f : String) : List AVal :=
  match dget ev f with
  | some (.l vs) => vs
  | _ => []

/-- Claim-side: the entries that add_rsvps_to_event appends into a given
collection field, in input order. -/
def entriesFor (rsvps : List Dict) (f : String) : List AVal :=
  rsvps.filterMap (fun r =>
    if rsvp_collection (dget r "verb") = .ok (some f)
    then some (optToVal (dget r (if f == "invited" then "object" else "actor")))
    else none)

/-- Claim-side: well-shaped attendance entries: records whose id, when
present, is a string that parses as a tag-URI. -/
def EntriesOK (vs : List AVal) : Prop :=
  ∀ a ∈ vs, ∃ ad, a = AVal.d ad ∧
    (dget ad "id" = none ∨ ∃ aid r1 r2, dget ad "id" = some (AVal.s aid) ∧
      parse_tag_uri aid = some (r1, r2))

/-- Claim-side: the (verb, actor) pairs contributed by one attendance field
for a non-invite verb. -/
def pairsBlock (event : Dict) (verb field : String) :
    List (Option AVal × Option AVal) :=
  (fieldList event field).map (fun a => (some (AVal.s verb), some a))

/-- Claim-side: the (verb, actor) pairs contributed by the invited field:
the actor of a synthesized invite RSVP is the event author when present. -/
def invitePairs (event : Dict) : List (Option AVal × Option AVal) :=
  (fieldList event "invited").map (fun _ => (some (AVal.s "invite"),
    if truthyO (dget event "author") then some (optToVal (dget event "author"))
    else none))

/-- Claim-side: the (verb, actor) pair of a synthesized RSVP record. -/
def rsvpPair (v : AVal) : Option AVal × Option AVal :=
  match v with
  | .d kvs => (dget kvs "verb", dget kvs "actor")
  | _ => (none, none)

/-- Claim-side: the string id of an item record ("" for non-records and
missing or non-string ids). -/
def itemId (o : AVal) : String :=
  match o with
  | .d kvs =>
      match dget kvs "id" with
      | some (.s x) => x
      | _ => ""
  | _ => ""

/-- The raw id value of an item, as used for the dict key in merge_by_id. -/
def idAv (o : AVal) : AVal :=
  match o with
  | .d kvs =>
      match dget kvs "id" with
      | some v => v
      | none => .nul
  | _ => .nul

/-- First-match association lookup in a key-value pair list. -/
def plookup (m : List (AVal × AVal)) (k : AVal) : Option AVal :=
  match m with
  | [] => none
  | p :: rest => if p.1 == k then some p.2 else plookup rest k

/-- The last item of the list whose id value is k, if any. -/
def lwFindA (items : List AVal) (k : AVal) : Option AVal :=
  match items with
  | [] => none
  | o :: rest =>
      match lwFindA rest k with
      | some x => some x
      | none => if idAv o == k then some o else none

/-- The last item of the list whose string id is idv, if any. -/
def lwFind (items : List AVal) (idv : String) : Option AVal :=
  match items with
  | [] => none
  | o :: rest =>
      match lwFind rest idv with
      | some x => some x
      | none => if itemId o == idv then some o else none

/-- The pure shadow of merge_by_id's dict comprehension (total on item
lists whose members are records with ids). -/
def pfold (items : List AVal) (m : List (AVal × AVal)) : List (AVal × AVal) :=
  match items with
  | [] => m
  | o :: rest => pfold rest (pdictSet m (idAv o) o)

instance : IsTotal (String × AVal) (fun x y => x.1 ≤ y.1) :=
  ⟨fun p q => le_total p.1 q.1⟩

instance : IsTrans (String × AVal) (fun x y => x.1 ≤ y.1) :=
  ⟨fun _ _ _ h1 h2 => le_trans h1 h2⟩

/-- The ignore handling of the changed helper of as1.activity_changed: when
an ignore list is given and both values are records, the ignored keys are
popped from copies of both. -/
def ignorePair (ignore : List String) (bval aval : Option AVal) :
    Option AVal × Option AVal :=
  if !ignore.isEmpty then
    match bval, aval with
    | some (.d bd), some (.d ad) =>
        (some (AVal.d (ignore.foldl (fun acc k => dpop acc k) bd)),
         some (AVal.d (ignore.foldl (fun acc k => dpop acc k) ad)))
    | _, _ => (bval, aval)
  else (bval, aval)

/-- The comparison of the changed helper: the (ignore-stripped) field values
differ and at least one of them is non-empty. -/
def changedPure (bval aval : Option AVal) (ignore : List String) : Bool :=
  let pair := ignorePair ignore bval aval
  decide (pair.1 ≠ pair.2) && (truthyO pair.2 || truthyO pair.1)

/-- Embeds the inner helper changed of as1.activity_changed: reads the field
from both records (raising on non-records) and compares. -/
def changedF (bv av : AVal) (field : String) (ignore : List String) :
    Except String Bool := do
  let bval ← aget bv field
  let aval ← aget av field
  pure (changedPure bval aval ignore)

/-- The generator inside as1.activity_changed's any(...): for each field,
first the activity-level comparison, then the object-level one,
short-circuiting on the first difference. -/
def anyChangedFields (bv av objB objA : AVal) : List String → Except String Bool
  | [] => pure false
  | f :: rest => do
      let c1 ← changedF bv av f []
      if c1 then pure true
      else do
        let c2 ← changedF objB objA f []
        if c2 then pure true
        else anyChangedFields bv av objB objA rest

/-- Embeds as1.activity_changed (the log parameter is omitted: it only
affects logging).  Compares objectType, verb, to, content, location and
image at the activity and the nested object level, then inReplyTo at both
levels with the author key stripped from record values. -/
def activity_changed (before after : Dict) : Except String Bool := do
  let objB := get_object before "object"
  let objA := get_object after "object"
  let r1 ← anyChangedFields (.d before) (.d after) objB objA
    ["objectType", "verb", "to", "content", "location", "image"]
  if r1 then pure true
  else do
    let r2 ← changedF (.d before) (.d after) "inReplyTo" ["author"]
    if r2 then pure true
    else changedF objB objA "inReplyTo" ["author"]

/-- webutil get_list applied to a value that should be a record, as used on
obj_b and obj_a in as1.append_in_reply_to. -/
def get_list_of : AVal → String → Except String (List AVal)
  | .d kvs, field => pure (get_list kvs field)
  | _, _ => .error "AttributeError"

/-- Embeds as1.append_in_reply_to.  The Python function mutates obj_a in
place.  obj_a is after itself when after has no truthy nested object (the
merged list lands on after's top level), the nested record or the first
element of a list-valued object field when there is one (the merged list
lands inside it), and a freshly synthesized record when the object field
holds a bare string, in which case the write is lost and after is returned
unchanged.  The returned dict is the final state of after. -/
def append_in_reply_to (before after : Dict) : Except String Dict := do
  let gB := get_object before "object"
  let objB : AVal := if truthy gB then gB else .d before
  let gA := get_object after "object"
  let objA : AVal := if truthy gA then gA else .d after
  if truthy objB && truthy objA then do
    let replyB ← get_list_of objB "inReplyTo"
    let replyA ← get_list_of objA "inReplyTo"
    let merged := AVal.l (dedupe_urls (replyA ++ replyB))
    if truthy gA then
      match dget after "object" with
      | some (.s _) => pure after
      | some (.d kvs) => pure (dset after "object" (.d (dset kvs "inReplyTo" merged)))
      | some (.l (v :: vs)) =>
          match v with
          | .s _ => pure after
          | .d kvs => pure (dset after "object" (.l (.d (dset kvs "inReplyTo" merged) :: vs)))
          | _ => Except.error "AttributeError"
      | _ => Except.error "AttributeError"
    else pure (dset after "inReplyTo" merged)
  else pure after

/-! as1.original_post_discovery, decomposed into the steps of the source
function.  The HTTP redirect-following collaborator is a parameter
follow : url -> (final url, content type); Python sets are modelled as
insertion-ordered duplicate-free lists. -/

/-- Character class of group 1 of as1._PERMASHORTCITATION_RE: no colon,
whitespace or closing paren. -/
def pscAChar (c : Char) : Bool := !(c == ':') && !c.isWhitespace && !(c == ')')

/-- Character class of the rest of the pattern: no whitespace or closing
paren. -/
def pscBChar (c : Char) : Bool := !c.isWhitespace && !(c == ')')

/-- Matches the tail of the permashortcitation pattern after group 1's
leading run and its dot: at least two more group-1 characters (longest
first, as the greedy regex backtracks), a space-or-slash separator, and a
nonempty group 2 running to the closing paren. -/
def pscTryTail (gA : List Char) (rest2 : List Char) : Option (String × String) :=
  (List.range rest2.length).findSome? (fun k =>
    let bLen := rest2.length - k
    if bLen < 2 then none
    else
      let B := rest2.take bLen
      if !B.all pscBChar then none
      else
        match rest2.drop bLen with
        | c :: g2 =>
            if (c == ' ' || c == '/') && !g2.isEmpty && g2.all pscBChar then
              some (String.mk (gA ++ '.' :: B), String.mk g2)
            else none
        | [] => none)

/-- Matches the inside of the parens of the permashortcitation pattern:
group 1 is a nonempty no-colon run (longest first), a dot, then the tail. -/
def pscTryInner (inner : List Char) : Option (String × String) :=
  (List.range inner.length).findSome? (fun k =>
    let aLen := inner.length - k
    if aLen == 0 then none
    else
      let A := inner.take aLen
      if !A.all pscAChar then none
      else
        match inner.drop aLen with
        | '.' :: rest2 => pscTryTail A rest2
        | _ => none)

/-- Embeds the _PERMASHORTCITATION_RE search of as1.original_post_discovery:
the leftmost match of the end-anchored pattern.  The content this runs on
has already been stripped, so the anchor means the match ends at the very
end; the closing paren is the last character and everything between the
opening paren and it is scanned by the groups. -/
def matchPSC (content : String) : Option (String × String) :=
  let cs := content.toList
  match cs.getLast? with
  | some ')' =>
      let body := cs.dropLast
      (List.range body.length).findSome? (fun st =>
        match body.drop st with
        | '(' :: inner => pscTryInner inner
        | _ => none)
  | _ => none

/-- The permashortcitation candidate urls: match.expand of http://g1/g2 for
the (at most one, because of the end anchor) match. -/
def psc_urls (content : String) : List String :=
  match matchPSC content with
  | some (g1, g2) => ["http://" ++ g1 ++ "/" ++ g2]
  | none => []

/-- obj = get_object(activity) or activity, used as a record afterwards; a
truthy non-record object value raises on its first .get. -/
def opd_obj_dict (activity : Dict) : Except String Dict :=
  let g := get_object activity "object"
  if truthy g then
    match g with
    | .d kvs => pure kvs
    | _ => .error "AttributeError"
  else pure activity

/-- content = obj.get('content', '').strip(); a present non-string content
raises on .strip. -/
def opd_content_of (obj : Dict) : Except String String :=
  match dget obj "content" with
  | none => pure ""
  | some (.s x) => pure (strTrim x)
  | some _ => .error "AttributeError"

/-- Attachment and tag urls of types article, mention, note or None:
the tags list comprehension of original_post_discovery. -/
def opd_tag_urls (obj : Dict) : Except String (List AVal) := do
  let atts ← match dget obj "attachments" with
    | none => pure []
    | some (.l vs) => pure vs
    | some _ => Except.error "TypeError"
  let tags ← match dget obj "tags" with
    | none => pure []
    | some (.l vs) => pure vs
    | some _ => Except.error "TypeError"
  (atts ++ tags).foldlM (fun acc t =>
    match t with
    | .d kvs =>
        let keep :=
          match dget kvs "objectType" with
          | none => true
          | some .nul => true
          | some (.s x) => x == "article" || x == "mention" || x == "note"
          | some _ => false
        pure (if keep then acc ++ [optToVal (dget kvs "url")] else acc)
    | _ => Except.error "AttributeError") []

/-- obj.get('upstreamDuplicates', []): a present non-list value raises at
the concatenation. -/
def opd_ups (obj : Dict) : Except String (List AVal) :=
  match dget obj "upstreamDuplicates" with
  | none => pure []
  | some (.l vs) => pure vs
  | some _ => Except.error "TypeError"

/-- Candidate harvesting of original_post_discovery: attachment and tag
urls, links extracted from content, upstreamDuplicates, targetUrl, and then
the permashortcitation urls appended at the end. -/
def opd_candidates (activity : Dict) : Except String (List AVal) := do
  let obj ← opd_obj_dict activity
  let content ← opd_content_of obj
  let tagUrls ← opd_tag_urls obj
  let ups ← opd_ups obj
  let tgt := get_list obj "targetUrl"
  pure (tagUrls ++ (extract_links content).map AVal.s ++ ups ++ tgt ++
        (psc_urls content).map AVal.s)

/-- The filter of the candidate comprehension: keep only http(s) urls that
do not end in an ellipsis. -/
def opd_keep (u : String) : Bool :=
  (strStartsWith u "http://" || strStartsWith u "https://") &&
  !(strEndsWith u "...") && !(strEndsWith u "…")

/-- The comprehension guard applied to one candidate: falsy values are
skipped, truthy non-strings raise on .startswith. -/
def opd_kept_step (acc : List String) (v : AVal) :
    Except String (List String) :=
  if !truthy v then pure acc
  else
    match v with
    | .s u => pure (if opd_keep u then acc ++ [u] else acc)
    | _ => Except.error "AttributeError"

/-- The comprehension guard applied to all candidates. -/
def opd_kept (cands : List AVal) : Except String (List String) :=
  cands.foldlM opd_kept_step []

/-- candidates = dedupe_urls(clean_url(url) for url in candidates if ...). -/
def opd_cleaned (cands : List AVal) : Except String (List String) := do
  let kept ← opd_kept cands
  pure (dedupe_url_strs (kept.map clean_url))

/-- Python dict insertion for the redirects mapping (string keys). -/
def pdictSetStr (m : List (String × String)) (k v : String) : List (String × String) :=
  if m.any (fun p => p.1 == k) then m.map (fun p => if p.1 == k then (k, v) else p)
  else m ++ [(k, v)]

/-- The redirect-resolution loop: records final url -> original url when the
final url differs and the response is text/html. -/
def opd_redirects (follow : String → String × String) (urls : List String) :
    List (String × String) :=
  urls.foldl (fun m url =>
    let resolved := follow url
    if !(resolved.1 == url) && strStartsWith resolved.2 "text/html" then
      pdictSetStr m resolved.1 url
    else m) []

/-- Set insertion for the originals and mentions result sets. -/
def setInsert (st : List String) (u : String) : List String :=
  if st.contains u then st else st ++ [u]

/-- The reserved-host skip condition: only with include_reserved_hosts off,
a domain without a dot or whose last label is a reserved or local TLD. -/
def opd_reserved_skip (include_reserved_hosts : Bool) (domain : String) : Bool :=
  !include_reserved_hosts &&
    (!(domain.toList.any (fun c => c == '.')) ||
     (match (splitAllAux '.' domain.toList []).getLast? with
      | some lbl => (RESERVED_TLDS ++ LOCAL_TLDS).contains (String.mk lbl)
      | none => false))

/-- The classification loop of original_post_discovery over the deduped
candidates: bare redirect sources are postponed, domainless urls skipped,
reserved hosts optionally skipped, and each url goes to originals or
mentions by the domains allowlist, together with its redirect source. -/
def opd_classify (domains : Option (List String)) (include_redirect_sources : Bool)
    (include_reserved_hosts : Bool) (redirects : List (String × String)) :
    List String → List String × List String → List String × List String
  | [], acc => acc
  | url :: rest, (origs, ments) =>
      if redirects.any (fun p => p.2 == url) then
        opd_classify domains include_redirect_sources include_reserved_hosts
          redirects rest (origs, ments)
      else
        let domain := domain_from_link url
        if domain == "" then
          opd_classify domains include_redirect_sources include_reserved_hosts
            redirects rest (origs, ments)
        else if opd_reserved_skip include_reserved_hosts domain then
          opd_classify domains include_redirect_sources include_reserved_hosts
            redirects rest (origs, ments)
        else
          let isOrig :=
            match domains with
            | none => true
            | some ds => ds.isEmpty || domain_or_parent_in domain ds
          let withUrl := fun (st : List String) =>
            let st := setInsert st url
            match redirects.find? (fun p => p.1 == url) with
            | some p => if include_redirect_sources then setInsert st p.2 else st
            | none => st
          if isOrig then
            opd_classify domains include_redirect_sources include_reserved_hosts
              redirects rest (withUrl origs, ments)
          else
            opd_classify domains include_redirect_sources include_reserved_hosts
              redirects rest (origs, withUrl ments)

/-- Embeds as1.original_post_discovery (kwargs, logging and the
redirect-count warning are omitted; follow is the black-box HTTP
collaborator). -/
def original_post_discovery (activity : Dict) (domains : Option (List String))
    (include_redirect_sources : Bool) (include_reserved_hosts : Bool)
    (max_redirect_fetches : Option Nat) (follow : String → String × String) :
    Except String (List String × List String) := do
  let cands ← opd_candidates activity
  let cleaned ← opd_cleaned cands
  let probe :=
    match max_redirect_fetches with
    | none => cleaned
    | some k => cleaned.take k
  let redirects := opd_redirects follow probe
  let cands2 := cleaned ++ redirects.map (fun p => p.1)
  pure (opd_classify domains include_redirect_sources include_reserved_hosts
    redirects (dedupe_url_strs cands2) ([], []))

/-- Missing values and empty values, as webutil trim_nulls drops them. -/
def isNullValO : Option AVal → Bool
  | none => true
  | some v => isNullVal v

/-- Claim-side (C3, amended): the audience fallback of is_public, undefined
(none) where Python raises reading it. -/
def audience_fallback (obj : Dict) : Option AVal :=
  match get_object obj "object" with
  | .d kvs =>
      some (match dget kvs "to" with
            | some v => if truthy v then v else .l []
            | none => .l [])
  | _ => none

/-- Claim-side (C3, amended): the audience list is_public uses: obj.to when
truthy, with the fallback when obj.to is absent or falsy. -/
def audience_of (obj : Dict) : Option AVal :=
  match dget obj "to" with
  | some v => if truthy v then some v else audience_fallback obj
  | none => audience_fallback obj

/-- Claim-side (C3): the claimed visibility answer as a function of the
audience entries: some true when an alias is public or unlisted, else none
when an objectType is unknown, else some false when any entry carries a
non-null (non-empty) alias, else some true. -/
def c3_formula (vs : List Dict) : Option Bool :=
  if vs.any (fun t => decide (dget t "alias" = some (.s "@public")) ||
             decide (dget t "alias" = some (.s "@unlisted"))) then some true
  else if vs.any (fun t => decide (dget t "objectType" = some (.s "unknown"))) then none
  else if vs.any (fun t => !(isNullValO (dget t "alias"))) then some false
  else some true

/-- The value of get_object as a function of the raw field value alone. -/
def get_object_spec (ov : Option AVal) : AVal :=
  match ov with
  | none => .d []
  | some v =>
      if truthy v then
        match v with
        | .s x => .d [("id", .s x)]
        | .l [] => .d []
        | .l (w :: _) =>
            if truthy w then
              match w with
              | .s x => .d [("id", .s x)]
              | w' => w'
            else .d []
        | v' => v'
      else .d []

/-! Basic lemmas about the dict operations. -/

theorem dget_nil (k : String) : dget [] k = none := rfl

theorem isEmpty_false_of_dget {obj : Dict} {k : String} {v : AVal}
    (h : dget obj k = some v) : obj.isEmpty = false := by
  cases obj with
  | nil => simp [dget] at h
  | cons x r => simp

theorem dget_append_right {kvs : Dict} {k : String} (more : Dict)
    (h : dget kvs k = none) : dget (kvs ++ more) k = dget more k := by
  induction kvs with
  | nil => simp
  | cons x r ih =>
      obtain ⟨k', v⟩ := x
      by_cases hk : k' = k
      · simp [dget, hk] at h
      · simp only [dget, hk, List.cons_append, beq_iff_eq, if_neg, not_false_iff] at h ⊢
        exact ih h

theorem dget_append_left {kvs : Dict} {k : String} {v : AVal} (more : Dict)
    (h : dget kvs k = some v) : dget (kvs ++ more) k = some v := by
  induction kvs with
  | nil => simp [dget] at h
  | cons x r ih =>
      obtain ⟨k', v'⟩ := x
      by_cases hk : k' = k
      · simpa [dget, hk] using h
      · simp only [dget, hk, List.cons_append, beq_iff_eq, if_neg, not_false_iff] at h ⊢
        exact ih h

theorem dget_update_self {kvs : Dict} {k : String} (v : AVal) (h : dmem kvs k = true) :
    dget (kvs.map (fun p => if p.1 == k then (k, v) else p)) k = some v := by
  induction kvs with
  | nil => simp [dmem] at h
  | cons x r ih =>
      obtain ⟨k', v'⟩ := x
      simp only [List.map_cons]
      cases hk : (k' == k) with
      | true => simp [hk, dget]
      | false =>
          simp only [dmem, hk, Bool.false_or] at h
          simp only [hk, Bool.false_eq_true, if_false, dget]
          exact ih h

theorem dget_update_ne {kvs : Dict} {k k' : String} (v : AVal) (h : k' ≠ k) :
    dget (kvs.map (fun p => if p.1 == k then (k, v) else p)) k' = dget kvs k' := by
  induction kvs with
  | nil => rfl
  | cons x r ih =>
      obtain ⟨k2, v2⟩ := x
      simp only [List.map_cons]
      cases hk2 : (k2 == k) with
      | true =>
          have hk2' : k2 = k := by simpa using hk2
          have hkk' : (k == k') = false := by
            simpa using fun hx => h hx.symm
          simp only [hk2, if_true, dget, hkk', Bool.false_eq_true, if_false, hk2', ih]
      | false =>
          simp only [hk2, Bool.false_eq_true, if_false, dget]
          cases hx : (k2 == k') with
          | true => simp
          | false => simpa [hx] using ih

theorem dget_none_of_dmem_false {kvs : Dict} {k : String} (hm : dmem kvs k = false) :
    dget kvs k = none := by
  induction kvs with
  | nil => rfl
  | cons x r ih =>
      obtain ⟨k', v'⟩ := x
      simp only [dmem, Bool.or_eq_false_iff] at hm
      simp only [dget, hm.1, Bool.false_eq_true, if_false]
      exact ih hm.2

theorem dget_dset_self (kvs : Dict) (k : String) (v : AVal) :
    dget (dset kvs k v) k = some v := by
  simp only [dset]
  cases hm : dmem kvs k with
  | true => simpa using dget_update_self v hm
  | false =>
      simp only [Bool.false_eq_true, if_false]
      rw [dget_append_right _ (dget_none_of_dmem_false hm)]
      simp [dget]

theorem dget_dset_ne (kvs : Dict) (k k' : String) (v : AVal) (h : k' ≠ k) :
    dget (dset kvs k v) k' = dget kvs k' := by
  simp only [dset]
  cases hm : dmem kvs k with
  | true => simpa using dget_update_ne v h
  | false =>
      simp only [Bool.false_eq_true, if_false]
      induction kvs with
      | nil => simp [dget, show (k == k') = false from by simpa using fun hx => h hx.symm]
      | cons x r ih =>
          obtain ⟨k2, v2⟩ := x
          simp only [List.cons_append, dget]
          cases hx : (k2 == k') with
          | true => simp
          | false =>
              simp only [hx, Bool.false_eq_true, if_false]
              exact ih (by
                simp only [dmem, Bool.or_eq_false_iff] at hm
                simp [dmem, hm.2])

theorem get_object_eq_spec (obj : Dict) (f : String) :
    get_object obj f = get_object_spec (dget obj f) := by
  cases hobj : obj with
  | nil => simp [get_object, get_object_spec, dget]
  | cons x r =>
      rw [← hobj]
      have hne : obj.isEmpty = false := by rw [hobj]; simp
      simp only [get_object, hne, Bool.false_eq_true, if_false, get_first, get_list]
      cases hv : dget obj f with
      | none => rfl
      | some v =>
          cases v with
          | s xv => by_cases hx : xv = "" <;> simp [get_object_spec, truthy, hx]
          | n xv => by_cases hx : xv = 0 <;> simp [get_object_spec, truthy, hx]
          | b xv => cases xv <;> simp [get_object_spec, truthy]
          | nul => simp [get_object_spec, truthy]
          | d kvs => cases kvs <;> simp [get_object_spec, truthy]
          | l vs =>
              cases vs with
              | nil => simp [get_object_spec, truthy]
              | cons w ws =>
                  cases w with
                  | s xv => by_cases hx : xv = "" <;> simp [get_object_spec, truthy, hx]
                  | n xv => by_cases hx : xv = 0 <;> simp [get_object_spec, truthy, hx]
                  | b xv => cases xv <;> simp [get_object_spec, truthy]
                  | nul => simp [get_object_spec, truthy]
                  | d kvs => cases kvs <;> simp [get_object_spec, truthy]
                  | l ivs => cases ivs <;> simp [get_object_spec, truthy]

theorem get_object_congr {x y : Dict} {f : String} (h : dget x f = dget y f) :
    get_object x f = get_object y f := by
  rw [get_object_eq_spec, get_object_eq_spec, h]

theorem pure_eq_ok {e a : Type} (x : a) : (pure x : Except e a) = Except.ok x := rfl

theorem ok_bind {e a c : Type} (x : a) (f : a → Except e c) :
    (Except.ok x >>= f) = f x := rfl

theorem error_bind {e a c : Type} (x : e) (f : a → Except e c) :
    (Except.error x >>= f) = Except.error x := rfl

theorem aget_d (kvs : Dict) (f : String) :
    aget (AVal.d kvs) f = Except.ok (dget kvs f) := rfl

theorem isNullValO_none : isNullValO none = true := rfl

theorem isNullValO_some (v : AVal) : isNullValO (some v) = isNullVal v := rfl

theorem optToVal_some (v : AVal) : optToVal (some v) = v := rfl

theorem optToVal_none : optToVal none = AVal.nul := rfl

/-! Claim C10. -/

/-- C10: append_in_reply_to has no observable effect when after's object
field is a bare (nonempty) string id reference: get_object synthesizes a
fresh id record, the merged inReplyTo list is written into that temporary
record, and the after argument itself is left entirely unchanged.  The
hypothesis on before only rules out shapes where Python would raise while
reading before's inReplyTo list (a truthy non-record nested object). -/
theorem c10_append_in_reply_to_string_object_noop (before after : Dict) (v : String)
    (hobj : dget after "object" = some (.s v)) (hv : v ≠ "")
    (hb : truthy (get_object before "object") = true →
      ∃ kvs, get_object before "object" = AVal.d kvs) :
    append_in_reply_to before after = .ok after := by
  have hga : get_object after "object" = AVal.d [("id", AVal.s v)] := by
    rw [get_object_eq_spec, hobj]
    simp [get_object_spec, truthy, hv]
  cases htb : truthy (get_object before "object") with
  | true =>
      obtain ⟨kvs, hkvs⟩ := hb htb
      have hk' : truthy (AVal.d kvs) = true := hkvs ▸ htb
      simp only [append_in_reply_to, hga, htb, hkvs, hk', if_true, get_list_of]
      simp [hobj, truthy, pure_eq_ok, ok_bind]
  | false =>
      simp only [append_in_reply_to, hga, htb, Bool.false_eq_true, if_false]
      cases before with
      | nil => simp [truthy, pure_eq_ok]
      | cons x r => simp [truthy, get_list_of, hobj, pure_eq_ok, ok_bind]

/-! Claim C3. -/

theorem mapExc_aget_map (vs : List Dict) (f : String) :
    mapExc (fun t => aget t f) (vs.map AVal.d) =
      (pure (vs.map (fun kv => dget kv f)) : Except String (List (Option AVal))) := by
  induction vs with
  | nil => rfl
  | cons x r ih => simp [mapExc, aget_d, ih, pure_eq_ok, ok_bind]

theorem listHas_trim_map (vs : List Dict) (f : String) (t : AVal)
    (ht : isNullVal t = false) :
    listHas (trim_nulls (vs.map (fun kv => dget kv f))) t =
      vs.any (fun kv => decide (dget kv f = some t)) := by
  induction vs with
  | nil => rfl
  | cons x r ih =>
      rw [List.map_cons]
      cases hdx : dget x f with
      | none =>
          simp only [trim_nulls, List.any_cons]
          simp [ih, hdx]
      | some v =>
          cases hnv : isNullVal v with
          | true =>
              have hvt : v ≠ t := fun h => by rw [h, ht] at hnv; cases hnv
              simp only [trim_nulls, hnv, if_true, List.any_cons]
              simp [ih, hvt, hdx]
          | false =>
              simp only [trim_nulls, hnv, Bool.false_eq_true, if_false, listHas,
                List.any_cons]
              simp only [listHas] at ih
              simp [ih, hdx]

theorem isEmpty_trim_map (vs : List Dict) (f : String) :
    (trim_nulls (vs.map (fun kv => dget kv f))).isEmpty =
      !vs.any (fun kv => !(isNullValO (dget kv f))) := by
  induction vs with
  | nil => rfl
  | cons x r ih =>
      rw [List.map_cons]
      cases hdx : dget x f with
      | none =>
          simp only [trim_nulls, List.any_cons, hdx, isNullValO_none]
          simp [ih]
      | some v =>
          cases hnv : isNullVal v with
          | true =>
              simp only [trim_nulls, hnv, if_true, List.any_cons, hdx,
                isNullValO_some]
              simp [ih, hnv]
          | false =>
              simp only [trim_nulls, hnv, Bool.false_eq_true, if_false,
                List.any_cons, hdx, isNullValO_some]
              simp [hnv]

theorem any_or_split {α : Type} (l : List α) (p q : α → Bool) :
    l.any (fun x => p x || q x) = (l.any p || l.any q) := by
  induction l with
  | nil => rfl
  | cons x r ih => cases hp : p x <;> cases hq : q x <;> simp [hp, hq, ih]

theorem is_public_fallback_eq {obj : Dict} {w : AVal}
    (h : audience_fallback obj = some w) : is_public_fallback obj = pure w := by
  unfold audience_fallback at h
  unfold is_public_fallback
  cases hgo : get_object obj "object" with
  | d kvs =>
      rw [hgo] at h
      injection h with h2
      cases hdt : dget kvs "to" with
      | none => rw [hdt] at h2; subst h2; simp [hdt]
      | some v => rw [hdt] at h2; subst h2; simp [hdt]
  | s x => rw [hgo] at h; cases h
  | n x => rw [hgo] at h; cases h
  | b x => rw [hgo] at h; cases h
  | nul => rw [hgo] at h; cases h
  | l vs => rw [hgo] at h; cases h

/-- C3 counterexample: the claim says is_public falls back to the nested
object's audience only when obj.to is absent; the code also falls back when
obj.to is present but empty (falsy).  Here to is present and empty, so the
claim predicts the default some true, but the code reads the nested
object's private audience and returns some false. -/
theorem c3_counterexample :
    dget [("to", AVal.l []),
          ("object", AVal.d [("to", AVal.l [AVal.d [("alias", AVal.s "@private")]])])]
        "to" = some (AVal.l []) ∧
    is_public [("to", AVal.l []),
          ("object", AVal.d [("to", AVal.l [AVal.d [("alias", AVal.s "@private")]])])] =
      .ok (some false) := ⟨rfl, rfl⟩

/-- C3 (amended): is_public reads the to audience list from obj, falling
back to the to list of get_object(obj) when obj.to is absent or falsy (not
only when absent), and returns, for every object whose effective audience
entries are records: some true if any entry's alias is @public or
@unlisted; else none if any entry's objectType equals unknown; else some
false if any entry has a non-null (non-empty) alias; else some true (in
particular to: [] with no nested audience, and a missing to, both yield
some true). -/
theorem c3_is_public_amended (obj : Dict) (vs : List Dict)
    (hv : audience_of obj = some (AVal.l (vs.map AVal.d))) :
    is_public obj = .ok (c3_formula vs) := by
  have hstep : is_public_to obj = pure (AVal.l (vs.map AVal.d)) := by
    unfold audience_of at hv
    unfold is_public_to
    cases hdt : dget obj "to" with
    | some v =>
        simp only [hdt] at hv
        cases htv : truthy v with
        | true =>
            rw [htv] at hv
            simp only [if_true] at hv
            injection hv with hv2
            subst hv2
            simp [htv]
        | false =>
            rw [htv] at hv
            simp only [Bool.false_eq_true, if_false] at hv
            simp only [htv, Bool.false_eq_true, if_false]
            exact is_public_fallback_eq hv
    | none =>
        simp only [hdt] at hv
        exact is_public_fallback_eq hv
  unfold is_public
  rw [hstep]
  simp only [pure_eq_ok, ok_bind, mapExc_aget_map]
  rw [listHas_trim_map _ _ _ (by rfl), listHas_trim_map _ _ _ (by rfl),
    listHas_trim_map _ _ _ (by rfl), isEmpty_trim_map]
  simp only [c3_formula, Bool.not_not, pure_eq_ok]
  rw [← any_or_split]

/-- Witness for the amended C3 at a concrete private audience. -/
theorem c3_witness :
    is_public [("to", AVal.l [AVal.d [("alias", AVal.s "@private")]])] =
      .ok (some false) := by
  have h := c3_is_public_amended
    [("to", AVal.l [AVal.d [("alias", AVal.s "@private")]])]
    [[("alias", AVal.s "@private")]] (by decide)
  simpa using h

/-! Claim C9. -/

theorem decide_ne_symm {α : Type} [DecidableEq α] (x y : α) :
    decide (x ≠ y) = decide (y ≠ x) := by
  by_cases h : x = y
  · subst h; rfl
  · simp [h, Ne.symm h]

theorem ignorePair_swap (ig : List String) (bval aval : Option AVal) :
    ignorePair ig aval bval = ((ignorePair ig bval aval).2, (ignorePair ig bval aval).1) := by
  unfold ignorePair
  cases hig : !ig.isEmpty with
  | false => simp [hig]
  | true =>
      simp only [hig, if_true]
      cases bval with
      | none => cases aval with
        | none => rfl
        | some v2 => cases v2 <;> rfl
      | some v1 =>
          cases aval with
          | none => cases v1 <;> rfl
          | some v2 => cases v1 <;> cases v2 <;> rfl

theorem changedPure_symm (x y : Option AVal) (ig : List String) :
    changedPure y x ig = changedPure x y ig := by
  unfold changedPure
  rw [ignorePair_swap]
  have hd : decide ((ignorePair ig x y).2 = (ignorePair ig x y).1) =
      decide ((ignorePair ig x y).1 = (ignorePair ig x y).2) := by
    rw [decide_eq_decide]
    exact eq_comm
  simp [hd, Bool.or_comm]

theorem changedF_symm (bv av : AVal) (f : String) (ig : List String) :
    changedF bv av f ig = changedF av bv f ig := by
  cases bv with
  | d b1 =>
      cases av with
      | d a1 =>
          simp only [changedF, aget_d, ok_bind, pure_eq_ok]
          exact congrArg Except.ok (changedPure_symm (dget a1 f) (dget b1 f) ig)
      | _ => rfl
  | _ => cases av <;> rfl

theorem anyChangedFields_symm (bv av oB oA : AVal) (fs : List String) :
    anyChangedFields bv av oB oA fs = anyChangedFields av bv oA oB fs := by
  induction fs with
  | nil => rfl
  | cons f rest ih =>
      simp only [anyChangedFields]
      simp only [changedF_symm bv av f [], changedF_symm oB oA f [], ih]

/-- C9: activity_changed is symmetric: swapping the two arguments gives the
same result (also when Python would raise: the same error arises in both
orders). -/
theorem c9_activity_changed_symmetric (before after : Dict) :
    activity_changed before after = activity_changed after before := by
  simp only [activity_changed]
  simp only [anyChangedFields_symm (AVal.d before) (AVal.d after)
    (get_object before "object") (get_object after "object")]
  simp only [changedF_symm (AVal.d before) (AVal.d after) "inReplyTo" ["author"],
    changedF_symm (get_object before "object") (get_object after "object")
      "inReplyTo" ["author"]]

/-! Claim C5. -/

theorem changedF_dd (x y : Dict) (f : String) (ig : List String) :
    changedF (AVal.d x) (AVal.d y) f ig =
      Except.ok (changedPure (dget x f) (dget y f) ig) := rfl

theorem dget_single_ne (k0 : String) (v : AVal) {k : String} (h : ¬k = k0) :
    dget [(k0, v)] k = none := by
  have hb : (k0 == k) = false := by
    cases hb : (k0 == k) with
    | true =>
        have hkk : k0 = k := by simpa using hb
        exact (h hkk.symm).elim
    | false => rfl
  simp [dget, hb]

theorem changedPure_self (x : Option AVal) (ig : List String) :
    changedPure x x ig = false := by
  unfold changedPure ignorePair
  cases hig : !ig.isEmpty with
  | false => simp
  | true =>
      simp only [if_true]
      cases x with
      | none => simp
      | some v => cases v <;> simp

theorem changedPure_true_of {cb ca : Option AVal} (hne : cb ≠ ca)
    (ht : (truthyO cb || truthyO ca) = true) :
    changedPure cb ca [] = true := by
  unfold changedPure ignorePair
  simp only [List.isEmpty_nil, Bool.not_true, Bool.false_eq_true, if_false]
  simp [hne]
  rcases Bool.or_eq_true_iff.mp ht with hx | hx
  · exact Or.inr hx
  · exact Or.inl hx

theorem get_object_of_dict {x : Dict} {f : String} {kvs : Dict}
    (h : dget x f = some (AVal.d kvs)) : get_object x f = AVal.d kvs := by
  rw [get_object_eq_spec, h]
  cases kvs with
  | nil => simp [get_object_spec, truthy]
  | cons p r => simp [get_object_spec, truthy]

theorem anyChangedFields_false (bv av oB oA : AVal) (fs : List String)
    (hact : ∀ f ∈ fs, changedF bv av f [] = .ok false)
    (hobj : ∀ f ∈ fs, changedF oB oA f [] = .ok false) :
    anyChangedFields bv av oB oA fs = .ok false := by
  induction fs with
  | nil => rfl
  | cons f rest ih =>
      simp only [anyChangedFields, hact f (by simp), hobj f (by simp), ok_bind,
        Bool.false_eq_true, if_false]
      exact ih (fun g hg => hact g (by simp [hg])) (fun g hg => hobj g (by simp [hg]))

/-- C5 counterexample: for a list-valued inReplyTo the author sub-field is
not stripped (the code only strips it when both values are single records),
so two activities that differ only in the author inside an inReplyTo entry
are reported as changed, where the claim says False. -/
theorem c5_counterexample :
    activity_changed
      [("inReplyTo", AVal.l [AVal.d [("id", AVal.s "r"),
        ("author", AVal.d [("n", AVal.s "1")])]])]
      [("inReplyTo", AVal.l [AVal.d [("id", AVal.s "r"),
        ("author", AVal.d [("n", AVal.s "2")])]])] = .ok true := rfl

/-- C5 (amended): activity_changed returns false for pairs identical except
in top-level author or published or updated; false for pairs that differ
only in the author sub-field of a record-valued (not list-valued) inReplyTo;
and true for pairs identical except the nested object's content when the
two contents are not both empty.  The existential hypotheses only rule out
shapes where Python would raise (a truthy non-record nested object). -/
theorem c5_activity_changed_amended
    (b1 a1 b2 a2 b3 a3 rb ra ob oa : Dict) (cb ca : Option AVal)
    (h1 : ∀ k, ¬k ∈ ["author", "published", "updated"] → dget b1 k = dget a1 k)
    (h1d : ∃ kvs, get_object b1 "object" = AVal.d kvs)
    (h2 : ∀ k, ¬k = "inReplyTo" → dget b2 k = dget a2 k)
    (h2b : dget b2 "inReplyTo" = some (AVal.d rb))
    (h2a : dget a2 "inReplyTo" = some (AVal.d ra))
    (h2eq : dpop rb "author" = dpop ra "author")
    (h2d : ∃ kvs, get_object b2 "object" = AVal.d kvs)
    (h3 : ∀ k, ¬k = "object" → dget b3 k = dget a3 k)
    (h3b : dget b3 "object" = some (AVal.d ob))
    (h3a : dget a3 "object" = some (AVal.d oa))
    (h3o : ∀ k, ¬k = "content" → dget ob k = dget oa k)
    (h3cb : dget ob "content" = cb) (h3ca : dget oa "content" = ca)
    (h3ne : cb ≠ ca) (h3t : (truthyO cb || truthyO ca) = true) :
    activity_changed b1 a1 = .ok false ∧
    activity_changed b2 a2 = .ok false ∧
    activity_changed b3 a3 = .ok true := by
  refine ⟨?_, ?_, ?_⟩
  · obtain ⟨kvs, hkvs⟩ := h1d
    have hoo : get_object a1 "object" = AVal.d kvs := by
      rw [← get_object_congr (h1 "object" (by decide))]
      exact hkvs
    have hfalse : ∀ f, dget b1 f = dget a1 f →
        changedF (AVal.d b1) (AVal.d a1) f [] = Except.ok false := by
      intro f hf
      rw [changedF_dd, hf, changedPure_self]
    simp only [activity_changed, hkvs, hoo]
    rw [anyChangedFields_false _ _ _ _ _
      (by
        intro f hf
        refine hfalse f (h1 f ?_)
        simp only [List.mem_cons, List.not_mem_nil, or_false] at hf
        rcases hf with rfl | rfl | rfl | rfl | rfl | rfl <;> decide)
      (by
        intro f hf
        rw [changedF_dd, changedPure_self])]
    simp only [ok_bind, Bool.false_eq_true, if_false]
    rw [changedF_dd, h1 "inReplyTo" (by decide), changedPure_self]
    simp only [ok_bind, Bool.false_eq_true, if_false]
    rw [changedF_dd, changedPure_self]
  · obtain ⟨kvs, hkvs⟩ := h2d
    have hoo : get_object a2 "object" = AVal.d kvs := by
      rw [← get_object_congr (h2 "object" (by decide))]
      exact hkvs
    simp only [activity_changed, hkvs, hoo]
    rw [anyChangedFields_false _ _ _ _ _
      (by
        intro f hf
        rw [changedF_dd]
        have hne : ¬f = "inReplyTo" := by
          simp only [List.mem_cons, List.not_mem_nil, or_false] at hf
          rcases hf with rfl | rfl | rfl | rfl | rfl | rfl <;> decide
        rw [h2 f hne, changedPure_self])
      (by
        intro f hf
        rw [changedF_dd, changedPure_self])]
    simp only [ok_bind, Bool.false_eq_true, if_false]
    rw [changedF_dd, h2b, h2a]
    have hstrip : changedPure (some (AVal.d rb)) (some (AVal.d ra)) ["author"] = false := by
      unfold changedPure ignorePair
      simp only [List.isEmpty_cons, Bool.not_false, if_true]
      simp [List.foldl, h2eq]
    rw [hstrip]
    simp only [ok_bind, Bool.false_eq_true, if_false]
    rw [changedF_dd, changedPure_self]
  · have hob : get_object b3 "object" = AVal.d ob := get_object_of_dict h3b
    have hoa : get_object a3 "object" = AVal.d oa := get_object_of_dict h3a
    simp only [activity_changed, hob, hoa]
    have hact : ∀ f, ¬f = "object" →
        changedF (AVal.d b3) (AVal.d a3) f [] = Except.ok false := by
      intro f hf
      rw [changedF_dd, h3 f hf, changedPure_self]
    have hobjf : ∀ f, ¬f = "content" →
        changedF (AVal.d ob) (AVal.d oa) f [] = Except.ok false := by
      intro f hf
      rw [changedF_dd, h3o f hf, changedPure_self]
    simp only [anyChangedFields]
    rw [hact "objectType" (by decide), hobjf "objectType" (by decide)]
    simp only [ok_bind, Bool.false_eq_true, if_false]
    rw [hact "verb" (by decide), hobjf "verb" (by decide)]
    simp only [ok_bind, Bool.false_eq_true, if_false]
    rw [hact "to" (by decide), hobjf "to" (by decide)]
    simp only [ok_bind, Bool.false_eq_true, if_false]
    rw [hact "content" (by decide)]
    simp only [ok_bind, Bool.false_eq_true, if_false]
    rw [changedF_dd, h3cb, h3ca, changedPure_true_of h3ne h3t]
    simp [pure_eq_ok, ok_bind]

/-- Witness for the amended C5 at concrete inputs for all three scenarios. -/
theorem c5_witness :
    activity_changed [("author", AVal.s "x")] [("author", AVal.s "y")] = .ok false ∧
    activity_changed
      [("inReplyTo", AVal.d [("id", AVal.s "r"), ("author", AVal.d [("n", AVal.s "1")])])]
      [("inReplyTo", AVal.d [("id", AVal.s "r"), ("author", AVal.d [("n", AVal.s "2")])])] =
      .ok false ∧
    activity_changed [("object", AVal.d [("content", AVal.s "old")])]
      [("object", AVal.d [("content", AVal.s "new")])] = .ok true := by
  have h := c5_activity_changed_amended
    [("author", AVal.s "x")] [("author", AVal.s "y")]
    [("inReplyTo", AVal.d [("id", AVal.s "r"), ("author", AVal.d [("n", AVal.s "1")])])]
    [("inReplyTo", AVal.d [("id", AVal.s "r"), ("author", AVal.d [("n", AVal.s "2")])])]
    [("object", AVal.d [("content", AVal.s "old")])]
    [("object", AVal.d [("content", AVal.s "new")])]
    [("id", AVal.s "r"), ("author", AVal.d [("n", AVal.s "1")])]
    [("id", AVal.s "r"), ("author", AVal.d [("n", AVal.s "2")])]
    [("content", AVal.s "old")] [("content", AVal.s "new")]
    (some (AVal.s "old")) (some (AVal.s "new"))
    (by
      intro k hk
      have hka : ¬k = "author" := fun he => hk (by subst he; decide)
      rw [dget_single_ne _ _ hka, dget_single_ne _ _ hka])
    ⟨[], by decide⟩
    (by
      intro k hk
      rw [dget_single_ne _ _ hk, dget_single_ne _ _ hk])
    (by decide) (by decide) (by decide)
    ⟨[], by decide⟩
    (by
      intro k hk
      rw [dget_single_ne _ _ hk, dget_single_ne _ _ hk])
    (by decide) (by decide)
    (by
      intro k hk
      rw [dget_single_ne _ _ hk, dget_single_ne _ _ hk])
    (by decide) (by decide) (by decide) (by decide)
  exact h

/-! Claims C8, C6 and C1: the RSVP reconciler. -/

theorem add_rsvps_nil (event : Dict) :
    add_rsvps_to_event event [] = pure event := rfl

theorem add_rsvps_cons (event : Dict) (r : Dict) (rest : List Dict) :
    add_rsvps_to_event event (r :: rest) =
      (add_rsvp_step event r >>= fun ev1 => add_rsvps_to_event ev1 rest) := rfl

theorem dget_append_single_ne (kvs : Dict) (f k : String) (v : AVal) (h : ¬k = f) :
    dget (kvs ++ [(f, v)]) k = dget kvs k := by
  cases hk : dget kvs k with
  | some w => exact dget_append_left _ hk
  | none => rw [dget_append_right _ hk, dget_single_ne _ _ h]

theorem dget_append_single_self (kvs : Dict) (f : String) (v : AVal)
    (h : dget kvs f = none) : dget (kvs ++ [(f, v)]) f = some v := by
  rw [dget_append_right _ h]
  simp [dget]

theorem rsvp_collection_mem {v : Option AVal} {f : String}
    (h : rsvp_collection v = .ok (some f)) : f ∈ rsvpFields := by
  cases v with
  | none => injection h with h2; cases h2
  | some w =>
      cases w with
      | s x =>
          have h'' : (RSVP_VERB_TO_COLLECTION.find? (fun p => p.1 == x)).map
              (fun p => p.2) = some f := by injection h
          cases hf : RSVP_VERB_TO_COLLECTION.find? (fun p => p.1 == x) with
          | none => rw [hf] at h''; cases h''
          | some p =>
              rw [hf] at h''
              injection h'' with h2
              have hp := List.mem_of_find?_eq_some hf
              subst h2
              fin_cases hp <;> decide
      | n x => injection h with h2; cases h2
      | b x => injection h with h2; cases h2
      | nul => injection h with h2; cases h2
      | d kvs => cases h
      | l vs => cases h

theorem rsvp_collection_ok {v : Option AVal}
    (h : ∀ w, v = some w → hashableVal w = true) :
    ∃ o, rsvp_collection v = .ok o := by
  cases v with
  | none => exact ⟨none, rfl⟩
  | some w =>
      cases w with
      | s x => exact ⟨_, rfl⟩
      | n x => exact ⟨none, rfl⟩
      | b x => exact ⟨none, rfl⟩
      | nul => exact ⟨none, rfl⟩
      | d kvs => exact absurd (h _ rfl) (by simp [hashableVal])
      | l vs => exact absurd (h _ rfl) (by simp [hashableVal])

theorem rsvp_collection_none {v : Option AVal}
    (hh : ∀ w, v = some w → hashableVal w = true)
    (h : ∀ x, v = some (AVal.s x) → ¬x ∈ rsvpVerbs) :
    rsvp_collection v = .ok none := by
  cases v with
  | none => rfl
  | some w =>
      cases w with
      | s x =>
          have hx := h x rfl
          have h1 : ("rsvp-yes" == x) = false := beq_eq_false_iff_ne.mpr
            (fun hg => hx (hg ▸ (by decide : ("rsvp-yes" : String) ∈ rsvpVerbs)))
          have h2 : ("rsvp-no" == x) = false := beq_eq_false_iff_ne.mpr
            (fun hg => hx (hg ▸ (by decide : ("rsvp-no" : String) ∈ rsvpVerbs)))
          have h3 : ("rsvp-maybe" == x) = false := beq_eq_false_iff_ne.mpr
            (fun hg => hx (hg ▸ (by decide : ("rsvp-maybe" : String) ∈ rsvpVerbs)))
          have h4 : ("rsvp-interested" == x) = false := beq_eq_false_iff_ne.mpr
            (fun hg => hx (hg ▸ (by decide : ("rsvp-interested" : String) ∈ rsvpVerbs)))
          have h5 : ("invite" == x) = false := beq_eq_false_iff_ne.mpr
            (fun hg => hx (hg ▸ (by decide : ("invite" : String) ∈ rsvpVerbs)))
          have hf : RSVP_VERB_TO_COLLECTION.find? (fun p => p.1 == x) = none := by
            simp [RSVP_VERB_TO_COLLECTION, List.find?, h1, h2, h3, h4, h5]
          show (pure ((RSVP_VERB_TO_COLLECTION.find? (fun p => p.1 == x)).map
            (fun p => p.2)) : Except String (Option String)) = .ok none
          rw [hf]
          rfl
      | n x => rfl
      | b x => rfl
      | nul => rfl
      | d kvs => exact absurd (hh _ rfl) (by simp [hashableVal])
      | l vs => exact absurd (hh _ rfl) (by simp [hashableVal])

theorem add_rsvp_step_error {ev r : Dict} {e : String}
    (hc : rsvp_collection (dget r "verb") = .error e) :
    add_rsvp_step ev r = .error e := by
  simp [add_rsvp_step, hc]

theorem add_rsvp_step_none {ev r : Dict}
    (hc : rsvp_collection (dget r "verb") = .ok none) :
    add_rsvp_step ev r = .ok ev := by
  simp [add_rsvp_step, hc]

theorem add_rsvp_step_absent {ev r : Dict} {f : String}
    (hc : rsvp_collection (dget r "verb") = .ok (some f)) (hev : dget ev f = none) :
    add_rsvp_step ev r = .ok (ev ++
      [(f, AVal.l [optToVal (dget r (if f == "invited" then "object" else "actor"))])]) := by
  simp [add_rsvp_step, hc, hev]

theorem add_rsvp_step_list {ev r : Dict} {f : String} {vs : List AVal}
    (hc : rsvp_collection (dget r "verb") = .ok (some f))
    (hev : dget ev f = some (AVal.l vs)) :
    add_rsvp_step ev r = .ok (dset ev f (AVal.l (vs ++
      [optToVal (dget r (if f == "invited" then "object" else "actor"))]))) := by
  simp [add_rsvp_step, hc, hev]

theorem add_rsvp_step_frame {ev r ev1 : Dict} (hok : add_rsvp_step ev r = .ok ev1)
    (k : String) (hk : ¬k ∈ rsvpFields) : dget ev1 k = dget ev k := by
  cases hc : rsvp_collection (dget r "verb") with
  | error e =>
      rw [add_rsvp_step_error hc] at hok
      cases hok
  | ok o =>
      cases o with
      | none =>
          rw [add_rsvp_step_none hc] at hok
          injection hok with h2
          rw [← h2]
      | some f =>
          have hkf : ¬k = f := fun he => hk (by rw [he]; exact rsvp_collection_mem hc)
          cases hev : dget ev f with
          | none =>
              rw [add_rsvp_step_absent hc hev] at hok
              injection hok with h2
              rw [← h2, dget_append_single_ne _ _ _ _ hkf]
          | some w =>
              cases w with
              | l vs =>
                  rw [add_rsvp_step_list hc hev] at hok
                  injection hok with h2
                  rw [← h2, dget_dset_ne _ _ _ _ hkf]
              | s xx => simp [add_rsvp_step, hc, hev] at hok
              | n xx => simp [add_rsvp_step, hc, hev] at hok
              | b xx => simp [add_rsvp_step, hc, hev] at hok
              | nul => simp [add_rsvp_step, hc, hev] at hok
              | d kk => simp [add_rsvp_step, hc, hev] at hok

theorem add_rsvps_frame (rsvps : List Dict) : ∀ event ev' : Dict,
    add_rsvps_to_event event rsvps = .ok ev' →
    ∀ k, ¬k ∈ rsvpFields → dget ev' k = dget event k := by
  induction rsvps with
  | nil =>
      intro event ev' hok k hk
      rw [add_rsvps_nil, pure_eq_ok] at hok
      injection hok with h2
      rw [← h2]
  | cons r rest ih =>
      intro event ev' hok k hk
      rw [add_rsvps_cons] at hok
      cases hstep : add_rsvp_step event r with
      | error e => rw [hstep, error_bind] at hok; cases hok
      | ok ev1 =>
          rw [hstep, ok_bind] at hok
          rw [ih ev1 ev' hok k hk, add_rsvp_step_frame hstep k hk]

theorem add_rsvps_unrecognized (rsvps : List Dict) : ∀ event : Dict,
    (∀ r ∈ rsvps, rsvp_collection (dget r "verb") = .ok none) →
    add_rsvps_to_event event rsvps = .ok event := by
  induction rsvps with
  | nil => intro event _; rfl
  | cons r rest ih =>
      intro event h
      rw [add_rsvps_cons, add_rsvp_step_none (h r (by simp)), ok_bind]
      exact ih event (fun g hg => h g (by simp [hg]))

theorem entriesFor_cons_skip {r : Dict} {rest : List Dict} {f : String}
    (h : ¬rsvp_collection (dget r "verb") = .ok (some f)) :
    entriesFor (r :: rest) f = entriesFor rest f := by
  simp [entriesFor, List.filterMap_cons, h]

theorem entriesFor_cons_hit {r : Dict} {rest : List Dict} {f : String}
    (h : rsvp_collection (dget r "verb") = .ok (some f)) :
    entriesFor (r :: rest) f =
      optToVal (dget r (if f == "invited" then "object" else "actor")) ::
        entriesFor rest f := by
  simp [entriesFor, List.filterMap_cons, h]

theorem add_rsvps_spec (rsvps : List Dict) : ∀ event : Dict,
    (∀ r ∈ rsvps, ∀ w, dget r "verb" = some w → hashableVal w = true) →
    (∀ f ∈ rsvpFields, dget event f = none ∨ ∃ vs, dget event f = some (AVal.l vs)) →
    ∃ ev', add_rsvps_to_event event rsvps = .ok ev' ∧
      (∀ k, ¬k ∈ rsvpFields → dget ev' k = dget event k) ∧
      (∀ f ∈ rsvpFields, fieldList ev' f = fieldList event f ++ entriesFor rsvps f) ∧
      (∀ f ∈ rsvpFields, dget ev' f = none ∨ ∃ vs, dget ev' f = some (AVal.l vs)) := by
  induction rsvps with
  | nil =>
      intro event _ hshape
      refine ⟨event, rfl, fun k _ => rfl, fun f _ => ?_, hshape⟩
      simp [entriesFor]
  | cons r rest ih =>
      intro event hverbs hshape
      have hverbs2 : ∀ g ∈ rest, ∀ w, dget g "verb" = some w →
          hashableVal w = true := fun g hg => hverbs g (by simp [hg])
      obtain ⟨o, hc⟩ := rsvp_collection_ok (hverbs r (by simp))
      cases o with
      | none =>
          obtain ⟨ev', hok, hframe, hfl, hshape2⟩ := ih event hverbs2 hshape
          refine ⟨ev', ?_, hframe, ?_, hshape2⟩
          · rw [add_rsvps_cons, add_rsvp_step_none hc, ok_bind, hok]
          · intro f hf
            rw [hfl f hf, entriesFor_cons_skip (by simp [hc])]
      | some f0 =>
          have hf0 : f0 ∈ rsvpFields := rsvp_collection_mem hc
          rcases hshape f0 hf0 with hev | ⟨vs, hev⟩
          · have hshape1 : ∀ f ∈ rsvpFields,
                dget (event ++ [(f0, AVal.l
                  [optToVal (dget r (if f0 == "invited" then "object" else "actor"))])]) f =
                  none ∨
                ∃ ws, dget (event ++ [(f0, AVal.l
                  [optToVal (dget r (if f0 == "invited" then "object" else "actor"))])]) f =
                  some (AVal.l ws) := by
              intro f hf
              by_cases hff : f = f0
              · subst hff
                exact Or.inr ⟨_, dget_append_single_self _ _ _ hev⟩
              · rw [dget_append_single_ne _ _ _ _ hff]
                exact hshape f hf
            obtain ⟨ev', hok, hframe, hfl, hshape2⟩ := ih _ hverbs2 hshape1
            refine ⟨ev', ?_, ?_, ?_, hshape2⟩
            · rw [add_rsvps_cons, add_rsvp_step_absent hc hev, ok_bind, hok]
            · intro k hk
              rw [hframe k hk,
                dget_append_single_ne _ _ _ _ (fun he => hk (by rw [he]; exact hf0))]
            · intro f hf
              by_cases hff : f = f0
              · subst hff
                rw [hfl f hf, entriesFor_cons_hit hc]
                unfold fieldList
                rw [dget_append_single_self _ _ _ hev, hev]
                simp
              · rw [hfl f hf, entriesFor_cons_skip (by
                  rw [hc]
                  intro he
                  injection he with h3
                  injection h3 with h4
                  exact hff h4.symm)]
                unfold fieldList
                rw [dget_append_single_ne _ _ _ _ hff]
          · have hshape1 : ∀ f ∈ rsvpFields,
                dget (dset event f0 (AVal.l (vs ++
                  [optToVal (dget r (if f0 == "invited" then "object" else "actor"))]))) f =
                  none ∨
                ∃ ws, dget (dset event f0 (AVal.l (vs ++
                  [optToVal (dget r (if f0 == "invited" then "object" else "actor"))]))) f =
                  some (AVal.l ws) := by
              intro f hf
              by_cases hff : f = f0
              · subst hff
                exact Or.inr ⟨_, dget_dset_self _ _ _⟩
              · rw [dget_dset_ne _ _ _ _ hff]
                exact hshape f hf
            obtain ⟨ev', hok, hframe, hfl, hshape2⟩ := ih _ hverbs2 hshape1
            refine ⟨ev', ?_, ?_, ?_, hshape2⟩
            · rw [add_rsvps_cons, add_rsvp_step_list hc hev, ok_bind, hok]
            · intro k hk
              rw [hframe k hk,
                dget_dset_ne _ _ _ _ (fun he => hk (by rw [he]; exact hf0))]
            · intro f hf
              by_cases hff : f = f0
              · subst hff
                rw [hfl f hf, entriesFor_cons_hit hc]
                unfold fieldList
                rw [dget_dset_self, hev]
                simp
              · rw [hfl f hf, entriesFor_cons_skip (by
                  rw [hc]
                  intro he
                  injection he with h3
                  injection h3 with h4
                  exact hff h4.symm)]
                unfold fieldList
                rw [dget_dset_ne _ _ _ _ hff]

/-- C8 counterexample: a record-valued verb is an unhashable dict key, so
RSVP_VERB_TO_COLLECTION.get raises TypeError and add_rsvps_to_event fails
instead of skipping the RSVP and leaving the event unchanged. -/
theorem c8_counterexample :
    add_rsvps_to_event [("id", AVal.s "e")] [[("verb", AVal.d [])]] =
      .error "TypeError" := rfl

/-- C8 (amended): add_rsvps_to_event modifies only the five collection
fields attending, notAttending, maybeAttending, interested, invited --
appending each recognized RSVP's actor (its object for invite) in input
order -- and leaves every other field of the event unchanged; when every
RSVP's verb is hashable (not a record or list) and unrecognized, the event
is returned exactly as it was, all five collection fields included.  A
record- or list-valued verb instead raises TypeError at the table lookup
(see the counterexample). -/
theorem c8_add_rsvps_to_event_frame (event : Dict) (rsvps : List Dict) :
    (∀ ev', add_rsvps_to_event event rsvps = .ok ev' →
       ∀ k, ¬k ∈ rsvpFields → dget ev' k = dget event k) ∧
    ((∀ r ∈ rsvps, (∀ w, dget r "verb" = some w → hashableVal w = true) ∧
        (∀ x, dget r "verb" = some (AVal.s x) → ¬x ∈ rsvpVerbs)) →
       add_rsvps_to_event event rsvps = .ok event) ∧
    ((∀ r ∈ rsvps, ∀ w, dget r "verb" = some w → hashableVal w = true) →
     (∀ f ∈ rsvpFields, dget event f = none ∨ ∃ vs, dget event f = some (AVal.l vs)) →
       ∃ ev', add_rsvps_to_event event rsvps = .ok ev' ∧
         ∀ f ∈ rsvpFields, fieldList ev' f = fieldList event f ++ entriesFor rsvps f) := by
  refine ⟨fun ev' hok => add_rsvps_frame rsvps event ev' hok, ?_, ?_⟩
  · intro h
    exact add_rsvps_unrecognized rsvps event
      (fun r hr => rsvp_collection_none (h r hr).1 (h r hr).2)
  · intro hverbs hshape
    obtain ⟨ev', hok, _, hfl, _⟩ := add_rsvps_spec rsvps event hverbs hshape
    exact ⟨ev', hok, hfl⟩

/-- Witness for the amended C8: an unrecognized string verb leaves the
event untouched. -/
theorem c8_witness :
    add_rsvps_to_event [("id", AVal.s "e"), ("attending", AVal.l [AVal.s "a"])]
      [[("verb", AVal.s "follow")]] =
      .ok [("id", AVal.s "e"), ("attending", AVal.l [AVal.s "a"])] := by
  have h := (c8_add_rsvps_to_event_frame
    [("id", AVal.s "e"), ("attending", AVal.l [AVal.s "a"])]
    [[("verb", AVal.s "follow")]]).2.1
  apply h
  intro r hr
  simp only [List.mem_singleton] at hr
  subst hr
  constructor
  · intro w hw
    simp [dget] at hw
    subst hw
    rfl
  · intro x hx
    simp [dget] at hx
    subst hx
    decide

theorem dget_some_of_dmem : ∀ {kvs : Dict} {k : String}, dmem kvs k = true →
    ∃ v, dget kvs k = some v := by
  intro kvs k h
  induction kvs with
  | nil => simp [dmem] at h
  | cons x r ih =>
      obtain ⟨k2, v2⟩ := x
      cases hk : (k2 == k) with
      | true => exact ⟨v2, by simp [dget, hk]⟩
      | false =>
          simp only [dmem, hk, Bool.false_or] at h
          obtain ⟨v, hv⟩ := ih h
          exact ⟨v, by simp [dget, hk, hv]⟩

theorem parse_tag_uri_facts : ∀ {u dm nm : String},
    parse_tag_uri u = some (dm, nm) → ¬u = "" ∧ ¬nm = "" := by
  intro u dm nm h
  constructor
  · intro he
    subst he
    cases h
  · intro hnm
    subst hnm
    unfold parse_tag_uri at h
    split at h
    · split at h
      · cases h
      · simp only [] at h
        split at h
        · cases h
        · split at h
          · cases h
          · injection h with h2
            injection h2 with h3 h4
            have h5 := congrArg String.data h4
            simp_all
    · cases h

theorem mk_rsvp_ok (dm eid : String) (url author : Option AVal) (verb : String)
    (ad : Dict) (heid : ¬eid = "")
    (hidok : dget ad "id" = none ∨ ∃ aid r1 r2, dget ad "id" = some (AVal.s aid) ∧
      parse_tag_uri aid = some (r1, r2))
    (hurl : url = none ∨ ∃ u, url = some (AVal.s u)) :
    ∃ rd : Dict, mk_rsvp dm eid url author verb (AVal.d ad) = .ok (AVal.d rd) ∧
      dget rd "verb" = some (AVal.s verb) ∧
      dget rd "actor" = (if verb == "invite" then
        (if truthyO author then some (optToVal author) else none)
      else some (AVal.d ad)) := by
  have heide : eid.isEmpty = false := by
    cases he : eid.isEmpty with
    | true => exact absurd ((String.isEmpty_iff eid).mp he) heid
    | false => rfl
  have hv0 : dget [("objectType", AVal.s "activity"), ("verb", AVal.s verb),
      ((if verb == "invite" then "object" else "actor"), AVal.d ad),
      ("url", optToVal url)] "verb" = some (AVal.s verb) := rfl
  have ha0 : dget [("objectType", AVal.s "activity"), ("verb", AVal.s verb),
      ((if verb == "invite" then "object" else "actor"), AVal.d ad),
      ("url", optToVal url)] "actor" =
      (if verb == "invite" then none else some (AVal.d ad)) := by
    cases hi : (verb == "invite") with
    | true => simp only [hi, if_true]; rfl
    | false => simp only [hi, Bool.false_eq_true, if_false]; rfl
  have hmain : ∃ r1 : Dict,
      mk_rsvp dm eid url author verb (AVal.d ad) =
        .ok (AVal.d (if verb == "invite" && truthyO author
          then dset r1 "actor" (optToVal author) else r1)) ∧
      dget r1 "verb" = some (AVal.s verb) ∧
      dget r1 "actor" = (if verb == "invite" then none else some (AVal.d ad)) := by
    unfold mk_rsvp
    simp only [heide, Bool.false_eq_true, if_false, hasIdKey, pure_eq_ok, ok_bind]
    cases hdm : dmem ad "id" with
    | false =>
        simp only [Bool.false_eq_true, if_false, pure_eq_ok, ok_bind]
        exact ⟨_, rfl, hv0, ha0⟩
    | true =>
        rcases hidok with hnone | ⟨aid, r1, r2, hda, hpa⟩
        · obtain ⟨v, hv⟩ := dget_some_of_dmem hdm
          rw [hnone] at hv
          cases hv
        · simp only [if_true, hda, pure_eq_ok, ok_bind, optToVal_some, hpa]
          rcases hurl with hu | ⟨u, hu⟩
          · subst hu
            simp only [truthyO, Bool.false_eq_true, if_false, pure_eq_ok, ok_bind]
            refine ⟨_, rfl, ?_, ?_⟩
            · rw [dget_dset_ne _ _ _ _ (by decide), hv0]
            · rw [dget_dset_ne _ _ _ _ (by decide), ha0]
          · subst hu
            cases hue : (u == "") with
            | true =>
                have : truthyO (some (AVal.s u)) = false := by
                  simp [truthyO, truthy, hue]
                simp only [this, Bool.false_eq_true, if_false, pure_eq_ok, ok_bind]
                refine ⟨_, rfl, ?_, ?_⟩
                · rw [dget_dset_ne _ _ _ _ (by decide), hv0]
                · rw [dget_dset_ne _ _ _ _ (by decide), ha0]
            | false =>
                have : truthyO (some (AVal.s u)) = true := by
                  simp [truthyO, truthy, hue]
                simp only [this, if_true, pure_eq_ok, ok_bind]
                refine ⟨_, rfl, ?_, ?_⟩
                · rw [dget_dset_ne _ _ _ _ (by decide),
                    dget_dset_ne _ _ _ _ (by decide), hv0]
                · rw [dget_dset_ne _ _ _ _ (by decide),
                    dget_dset_ne _ _ _ _ (by decide), ha0]
  obtain ⟨r1, hok, hv1, ha1⟩ := hmain
  cases hi : (verb == "invite") with
  | false =>
      refine ⟨r1, ?_, hv1, ?_⟩
      · rw [hok, hi]
        simp
      · rw [ha1, hi]
        simp
  | true =>
      cases hau : truthyO author with
      | false =>
          refine ⟨r1, ?_, hv1, ?_⟩
          · rw [hok, hi, hau]
            simp
          · rw [ha1, hi]
            simp [hau]
      | true =>
          refine ⟨dset r1 "actor" (optToVal author), ?_, ?_, ?_⟩
          · rw [hok, hi, hau]
            simp
          · rw [dget_dset_ne _ _ _ _ (by decide), hv1]
          · rw [dget_dset_self]
            simp [hi, hau]

theorem mapExc_mk_rsvp (dm eid : String) (url author : Option AVal) (verb : String)
    (heid : ¬eid = "") (hurl : url = none ∨ ∃ u, url = some (AVal.s u)) :
    ∀ vs : List AVal, EntriesOK vs →
    ∃ rs, mapExc (mk_rsvp dm eid url author verb) vs = .ok rs ∧
      rs.map rsvpPair = vs.map (fun a => (some (AVal.s verb),
        if verb == "invite" then (if truthyO author then some (optToVal author) else none)
        else some a)) := by
  intro vs
  induction vs with
  | nil => intro _; exact ⟨[], rfl, rfl⟩
  | cons a rest ih =>
      intro hvs
      obtain ⟨ad, rfl, hidok⟩ := hvs a (by simp)
      obtain ⟨rd, hok, hv, ha⟩ := mk_rsvp_ok dm eid url author verb ad heid hidok hurl
      obtain ⟨rs, hoks, hmap⟩ := ih (fun b hb => hvs b (by simp [hb]))
      refine ⟨AVal.d rd :: rs, ?_, ?_⟩
      · simp only [mapExc, hok, ok_bind, hoks, pure_eq_ok]
      · simp only [List.map_cons, hmap, rsvpPair, hv, ha]

theorem get_rsvps_spec (event : Dict) (i dm eid : String)
    (hid : dget event "id" = some (AVal.s i))
    (hparse : parse_tag_uri i = some (dm, eid))
    (hurl : dget event "url" = none ∨ ∃ u, dget event "url" = some (AVal.s u))
    (hfields : ∀ f ∈ rsvpFields, dget event f = none ∨
       ∃ vs, dget event f = some (AVal.l vs) ∧ EntriesOK vs) :
    ∃ out, get_rsvps_from_event event = .ok out ∧
      out.map rsvpPair =
        pairsBlock event "rsvp-yes" "attending" ++
        pairsBlock event "rsvp-no" "notAttending" ++
        pairsBlock event "rsvp-maybe" "maybeAttending" ++
        pairsBlock event "rsvp-interested" "interested" ++
        invitePairs event := by
  obtain ⟨hine, heid⟩ := parse_tag_uri_facts hparse
  have hblock : ∀ verb field : String, field ∈ rsvpFields →
      ∃ rs : List AVal,
        (∀ acc : List AVal, get_rsvp_step event dm eid (dget event "url")
          (dget event "author") acc (verb, field) = .ok (acc ++ rs)) ∧
        rs.map rsvpPair = (fieldList event field).map (fun a => (some (AVal.s verb),
          if verb == "invite" then (if truthyO (dget event "author") then
            some (optToVal (dget event "author")) else none) else some a)) := by
    intro verb field hf
    rcases hfields field hf with hev | ⟨vs, hev, hvs⟩
    · refine ⟨[], ?_, by simp [fieldList, hev]⟩
      intro acc
      unfold get_rsvp_step
      rw [hev]
      rfl
    · obtain ⟨rs, hoks, hmap⟩ :=
        mapExc_mk_rsvp dm eid (dget event "url") (dget event "author") verb heid hurl vs hvs
      refine ⟨rs, ?_, ?_⟩
      · intro acc
        unfold get_rsvp_step
        rw [hev]
        simp only [pure_eq_ok, ok_bind, hoks]
      · rw [hmap]
        unfold fieldList
        rw [hev]
  obtain ⟨r1, hs1, hm1⟩ := hblock "rsvp-yes" "attending" (by decide)
  obtain ⟨r2, hs2, hm2⟩ := hblock "rsvp-no" "notAttending" (by decide)
  obtain ⟨r3, hs3, hm3⟩ := hblock "rsvp-maybe" "maybeAttending" (by decide)
  obtain ⟨r4, hs4, hm4⟩ := hblock "rsvp-interested" "interested" (by decide)
  obtain ⟨r5, hs5, hm5⟩ := hblock "invite" "invited" (by decide)
  have ht : truthyO (dget event "id") = true := by
    rw [hid]; simp [truthyO, truthy, hine]
  refine ⟨[] ++ r1 ++ r2 ++ r3 ++ r4 ++ r5, ?_, ?_⟩
  · unfold get_rsvps_from_event
    simp only []
    rw [ht]
    simp only [Bool.not_true, Bool.false_eq_true, if_false, hid, pure_eq_ok, ok_bind,
      hparse, RSVP_VERB_TO_COLLECTION]
    rw [List.foldlM]
    rw [hs1, ok_bind]
    rw [List.foldlM]
    rw [hs2, ok_bind]
    rw [List.foldlM]
    rw [hs3, ok_bind]
    rw [List.foldlM]
    rw [hs4, ok_bind]
    rw [List.foldlM]
    rw [hs5, ok_bind]
    rw [List.foldlM]
    rfl
  · simp only [List.nil_append, List.map_append, hm1, hm2, hm3, hm4, hm5,
      pairsBlock, invitePairs]
    simp

/-- C6 counterexample: an attendance entry whose id is present but is not a
parseable tag-URI makes get_rsvps_from_event raise (the Python tuple
unpacking of None), contradicting the claim that malformed entries are
handled gracefully. -/
theorem c6_counterexample :
    get_rsvps_from_event [("id", AVal.s "tag:x:1"),
      ("attending", AVal.l [AVal.d [("id", AVal.s "nope")]])] =
      .error "TypeError" := rfl

/-- C6 (amended): get_rsvps_from_event returns the empty sequence when the
event id is absent or falsy, and when the id is a (nonempty) string that
does not parse as a tag-URI; and it succeeds on events whose url is absent
or a string and whose attendance entries are records whose id, when
present, is a string parsing as a tag-URI.  An entry whose id is present
but does not parse as a tag-URI, however, raises rather than degrading
gracefully (see the counterexample). -/
theorem c6_get_rsvps_amended :
    (∀ event : Dict, (dget event "id" = none ∨
        (∃ v, dget event "id" = some v ∧ truthy v = false)) →
      get_rsvps_from_event event = .ok []) ∧
    (∀ (event : Dict) (i : String), dget event "id" = some (AVal.s i) → ¬i = "" →
      parse_tag_uri i = none → get_rsvps_from_event event = .ok []) ∧
    (∀ (event : Dict) (i dm eid : String), dget event "id" = some (AVal.s i) →
      parse_tag_uri i = some (dm, eid) →
      (dget event "url" = none ∨ ∃ u, dget event "url" = some (AVal.s u)) →
      (∀ f ∈ rsvpFields, dget event f = none ∨
        ∃ vs, dget event f = some (AVal.l vs) ∧ EntriesOK vs) →
      ∃ out, get_rsvps_from_event event = .ok out) := by
  refine ⟨?_, ?_, ?_⟩
  · intro event h
    have ht : truthyO (dget event "id") = false := by
      rcases h with h | ⟨v, hv, htv⟩
      · rw [h]; rfl
      · rw [hv]; exact htv
    unfold get_rsvps_from_event
    simp only []
    rw [ht]
    rfl
  · intro event i hid hine hparse
    have ht : truthyO (dget event "id") = true := by
      rw [hid]; simp [truthyO, truthy, hine]
    unfold get_rsvps_from_event
    simp only []
    rw [ht]
    simp only [Bool.not_true, Bool.false_eq_true, if_false, hid, pure_eq_ok, ok_bind,
      hparse]
  · intro event i dm eid hid hparse hurl hfields
    obtain ⟨out, hok, _⟩ := get_rsvps_spec event i dm eid hid hparse hurl hfields
    exact ⟨out, hok⟩

/-- Witness for the amended C6: a missing id, an unparseable id, and a
well-shaped event. -/
theorem c6_witness :
    get_rsvps_from_event [("displayName", AVal.s "e")] = .ok [] ∧
    get_rsvps_from_event [("id", AVal.s "nope")] = .ok [] ∧
    ∃ out, get_rsvps_from_event [("id", AVal.s "tag:x:1"),
      ("attending", AVal.l [AVal.d [("id", AVal.s "tag:x:a")]])] = .ok out := by
  refine ⟨c6_get_rsvps_amended.1 _ (Or.inl (by decide)),
    c6_get_rsvps_amended.2.1 _ "nope" (by decide) (by decide) (by decide),
    c6_get_rsvps_amended.2.2 _ "tag:x:1" "x" "1" (by decide) (by decide)
      (Or.inl (by decide)) ?_⟩
  intro f hf
  fin_cases hf
  · refine Or.inr ⟨[AVal.d [("id", AVal.s "tag:x:a")]], by decide, ?_⟩
    intro a ha
    simp only [List.mem_singleton] at ha
    subst ha
    exact ⟨[("id", AVal.s "tag:x:a")], rfl,
      Or.inr ⟨"tag:x:a", "x", "a", rfl, by decide⟩⟩
  · exact Or.inl (by decide)
  · exact Or.inl (by decide)
  · exact Or.inl (by decide)
  · exact Or.inl (by decide)

theorem perm_partition4 {α : Type} (p1 p2 p3 p4 : α → Bool) :
    ∀ l : List α,
    (∀ a ∈ l, (p1 a = true ∨ p2 a = true ∨ p3 a = true ∨ p4 a = true) ∧
      (p1 a = true → p2 a = false ∧ p3 a = false ∧ p4 a = false) ∧
      (p2 a = true → p1 a = false ∧ p3 a = false ∧ p4 a = false) ∧
      (p3 a = true → p1 a = false ∧ p2 a = false ∧ p4 a = false) ∧
      (p4 a = true → p1 a = false ∧ p2 a = false ∧ p3 a = false)) →
    (l.filter p1 ++ (l.filter p2 ++ (l.filter p3 ++ l.filter p4))).Perm l := by
  intro l
  induction l with
  | nil => intro _; simp
  | cons a rest ih =>
      intro hcov
      have ha := hcov a (by simp)
      have ihp := ih (fun b hb => hcov b (by simp [hb]))
      rcases ha.1 with h1 | h2 | h3 | h4
      · obtain ⟨e2, e3, e4⟩ := ha.2.1 h1
        simp only [List.filter_cons, h1, e2, e3, e4, if_true, if_false,
          Bool.false_eq_true, List.cons_append]
        exact List.Perm.cons a ihp
      · obtain ⟨e1, e3, e4⟩ := ha.2.2.1 h2
        simp only [List.filter_cons, h2, e1, e3, e4, if_true, if_false,
          Bool.false_eq_true, List.cons_append]
        exact List.Perm.trans List.perm_middle (List.Perm.cons a ihp)
      · obtain ⟨e1, e2, e4⟩ := ha.2.2.2.1 h3
        simp only [List.filter_cons, h3, e1, e2, e4, if_true, if_false,
          Bool.false_eq_true, List.cons_append]
        refine List.Perm.trans (List.Perm.append_left (rest.filter p1)
          List.perm_middle) ?_
        exact List.Perm.trans List.perm_middle (List.Perm.cons a ihp)
      · obtain ⟨e1, e2, e3⟩ := ha.2.2.2.2 h4
        simp only [List.filter_cons, h4, e1, e2, e3, if_true, if_false,
          Bool.false_eq_true, List.cons_append]
        refine List.Perm.trans (List.Perm.append_left (rest.filter p1)
          (List.Perm.append_left (rest.filter p2) List.perm_middle)) ?_
        refine List.Perm.trans (List.Perm.append_left (rest.filter p1)
          List.perm_middle) ?_
        exact List.Perm.trans List.perm_middle (List.Perm.cons a ihp)

theorem entriesFor_invited_nil :
    ∀ rsvps : List Dict,
    (∀ r ∈ rsvps, ∃ x, dget r "verb" = some (AVal.s x) ∧ x ∈ fourVerbs) →
    entriesFor rsvps "invited" = [] := by
  intro rsvps
  induction rsvps with
  | nil => intro _; rfl
  | cons r rest ih =>
      intro hcov
      obtain ⟨x, hverb, hx⟩ := hcov r (by simp)
      have hcol : ¬rsvp_collection (dget r "verb") = .ok (some "invited") := by
        rw [hverb]
        simp only [fourVerbs, List.mem_cons, List.not_mem_nil, or_false] at hx
        rcases hx with rfl | rfl | rfl | rfl <;> decide
      rw [entriesFor_cons_skip hcol]
      exact ih (fun b hb => hcov b (by simp [hb]))

theorem entriesFor_filter (v f : String) (hfne : (f == "invited") = false)
    (hvf : ∀ x ∈ fourVerbs,
      (rsvp_collection (some (AVal.s x)) = .ok (some f) ↔ x = v)) :
    ∀ rsvps : List Dict,
    (∀ r ∈ rsvps, (∃ x, dget r "verb" = some (AVal.s x) ∧ x ∈ fourVerbs) ∧
      (∃ w, dget r "actor" = some w)) →
    (entriesFor rsvps f).map (fun a => (some (AVal.s v), some a)) =
      (rsvps.filter (fun r => decide (dget r "verb" = some (AVal.s v)))).map
        (fun r => (dget r "verb", dget r "actor")) := by
  intro rsvps
  induction rsvps with
  | nil => intro _; rfl
  | cons r rest ih =>
      intro hcov
      obtain ⟨⟨x, hverb, hx⟩, ⟨w, hact⟩⟩ := hcov r (by simp)
      have ihe := ih (fun b hb => hcov b (by simp [hb]))
      by_cases hxv : x = v
      · subst hxv
        have hcol : rsvp_collection (dget r "verb") = .ok (some f) := by
          rw [hverb]; exact (hvf x hx).mpr rfl
        have hp : decide (dget r "verb" = some (AVal.s x)) = true := by
          simp only [decide_eq_true_eq]; rw [hverb]
        rw [entriesFor_cons_hit hcol, List.filter_cons]
        rw [hp]
        simp only [if_true, List.map_cons, ihe, hfne, Bool.false_eq_true,
          if_false, hverb, hact, optToVal_some]
      · have hcol : ¬rsvp_collection (dget r "verb") = .ok (some f) := by
          rw [hverb]
          intro hc
          exact hxv ((hvf x hx).mp hc)
        have hp : decide (dget r "verb" = some (AVal.s v)) = false := by
          simp only [decide_eq_false_iff_not]
          rw [hverb]
          intro hc
          injection hc with hc2
          injection hc2 with hc3
          exact hxv hc3
        rw [entriesFor_cons_skip hcol, List.filter_cons]
        rw [hp]
        simp only [Bool.false_eq_true, if_false]
        exact ihe

/-- C1 counterexample: an invite RSVP round-tripped through
add_rsvps_to_event and get_rsvps_from_event does not come back as the
original (verb, actor) pair: the invitee is stored in invited, and the
regenerated invite takes its actor from the (absent) event author. -/
theorem c1_counterexample :
    ∃ (ev' : Dict) (out : List AVal),
      add_rsvps_to_event [("id", AVal.s "tag:x:1")]
        [[("verb", AVal.s "invite"),
          ("actor", AVal.d [("id", AVal.s "tag:x:a")]),
          ("object", AVal.d [("id", AVal.s "tag:x:b")])]] = .ok ev' ∧
      get_rsvps_from_event ev' = .ok out ∧
      ¬ (out.map rsvpPair).Perm
        ([[("verb", AVal.s "invite"),
           ("actor", AVal.d [("id", AVal.s "tag:x:a")]),
           ("object", AVal.d [("id", AVal.s "tag:x:b")])]].map
          (fun r => (dget r "verb", dget r "actor"))) := by
  refine ⟨[("id", AVal.s "tag:x:1"),
      ("invited", AVal.l [AVal.d [("id", AVal.s "tag:x:b")]])],
    [AVal.d [("objectType", AVal.s "activity"), ("verb", AVal.s "invite"),
      ("object", AVal.d [("id", AVal.s "tag:x:b")]), ("url", AVal.nul),
      ("id", AVal.s "tag:x:1_rsvp_b")]], rfl, rfl, ?_⟩
  intro hperm
  have heq := List.perm_singleton.mp hperm
  simp only [List.map_cons, List.map_nil, rsvpPair] at heq
  have h2 := List.head_eq_of_cons_eq heq
  exact absurd (congrArg Prod.snd h2) (by decide)

/-- C1 (amended): for an event whose id is a string with a parseable
tag-URI, whose url is absent or a string, and whose five collection fields
start out absent, adding a batch of RSVPs whose verbs are among the four
attendance verbs (not invite) and whose actors are records with parseable
tag-URI string ids, and then regenerating RSVPs from the resulting event,
yields a sequence whose (verb, actor) pairs are a permutation of the input
batch's (verb, actor) pairs.  Invite RSVPs are excluded: they do not round
trip (see the counterexample), and the regenerated order groups by verb, so
only a permutation (not the original order) is recovered. -/
theorem c1_round_trip_amended (event : Dict) (rsvps : List Dict)
    (i dm eid : String)
    (hid : dget event "id" = some (AVal.s i))
    (hparse : parse_tag_uri i = some (dm, eid))
    (hurl : dget event "url" = none ∨ ∃ u, dget event "url" = some (AVal.s u))
    (hempty : ∀ f ∈ rsvpFields, dget event f = none)
    (hr : ∀ r ∈ rsvps, ∃ x ar aid q1 q2,
      dget r "verb" = some (AVal.s x) ∧ x ∈ fourVerbs ∧
      dget r "actor" = some (AVal.d ar) ∧ dget ar "id" = some (AVal.s aid) ∧
      parse_tag_uri aid = some (q1, q2)) :
    ∃ (ev' : Dict) (out : List AVal),
      add_rsvps_to_event event rsvps = .ok ev' ∧
      get_rsvps_from_event ev' = .ok out ∧
      (out.map rsvpPair).Perm
        (rsvps.map (fun r => (dget r "verb", dget r "actor"))) := by
  have hverbcov : ∀ r ∈ rsvps, ∃ x, dget r "verb" = some (AVal.s x) ∧
      x ∈ fourVerbs := by
    intro r hrm
    obtain ⟨x, ar, aid, q1, q2, hverb, hx, _, _, _⟩ := hr r hrm
    exact ⟨x, hverb, hx⟩
  have hcov : ∀ r ∈ rsvps, (∃ x, dget r "verb" = some (AVal.s x) ∧
      x ∈ fourVerbs) ∧ (∃ w, dget r "actor" = some w) := by
    intro r hrm
    obtain ⟨x, ar, aid, q1, q2, hverb, hx, hact, _, _⟩ := hr r hrm
    exact ⟨⟨x, hverb, hx⟩, ⟨AVal.d ar, hact⟩⟩
  have hhash : ∀ r ∈ rsvps, ∀ w, dget r "verb" = some w →
      hashableVal w = true := by
    intro r hrm w hw
    obtain ⟨x, ar, aid, q1, q2, hverb, _, _, _, _⟩ := hr r hrm
    rw [hverb] at hw
    injection hw with hw2
    rw [← hw2]
    rfl
  obtain ⟨ev', hok, hframe, hfl, hshape'⟩ :=
    add_rsvps_spec rsvps event hhash (fun f hf => Or.inl (hempty f hf))
  have hflE : ∀ f ∈ rsvpFields, fieldList ev' f = entriesFor rsvps f := by
    intro f hf
    rw [hfl f hf]
    have hz : fieldList event f = [] := by
      unfold fieldList
      rw [hempty f hf]
    rw [hz, List.nil_append]
  have hid' : dget ev' "id" = some (AVal.s i) := by
    rw [hframe "id" (by decide)]; exact hid
  have hurl' : dget ev' "url" = none ∨
      ∃ u, dget ev' "url" = some (AVal.s u) := by
    rw [hframe "url" (by decide)]; exact hurl
  have hEO : ∀ f ∈ rsvpFields, EntriesOK (entriesFor rsvps f) := by
    intro f hf a ha
    by_cases hfi : f = "invited"
    · subst hfi
      rw [entriesFor_invited_nil rsvps hverbcov] at ha
      exact absurd ha (List.not_mem_nil a)
    · unfold entriesFor at ha
      rw [List.mem_filterMap] at ha
      obtain ⟨r, hrm, hga⟩ := ha
      obtain ⟨x, ar, aid, q1, q2, hverb, hx, hact, haid, hps⟩ := hr r hrm
      split at hga
      · have hfne : (f == "invited") = false := by
          simp [hfi]
        rw [hfne] at hga
        simp only [Bool.false_eq_true, if_false] at hga
        injection hga with hga2
        rw [hact, optToVal_some] at hga2
        exact ⟨ar, hga2.symm, Or.inr ⟨aid, q1, q2, haid, hps⟩⟩
      · exact absurd hga (by simp)
  have hfields : ∀ f ∈ rsvpFields, dget ev' f = none ∨
      ∃ vs, dget ev' f = some (AVal.l vs) ∧ EntriesOK vs := by
    intro f hf
    rcases hshape' f hf with h | ⟨vs, h⟩
    · exact Or.inl h
    · refine Or.inr ⟨vs, h, ?_⟩
      have hv : vs = entriesFor rsvps f := by
        have h2 := hflE f hf
        unfold fieldList at h2
        rw [h] at h2
        exact h2
      rw [hv]
      exact hEO f hf
  obtain ⟨out, hgok, hgmap⟩ := get_rsvps_spec ev' i dm eid hid' hparse hurl' hfields
  have hb1 : pairsBlock ev' "rsvp-yes" "attending" =
      (rsvps.filter (fun r =>
        decide (dget r "verb" = some (AVal.s "rsvp-yes")))).map
        (fun r => (dget r "verb", dget r "actor")) := by
    unfold pairsBlock
    rw [hflE "attending" (by decide)]
    exact entriesFor_filter "rsvp-yes" "attending" (by decide) (by decide)
      rsvps hcov
  have hb2 : pairsBlock ev' "rsvp-no" "notAttending" =
      (rsvps.filter (fun r =>
        decide (dget r "verb" = some (AVal.s "rsvp-no")))).map
        (fun r => (dget r "verb", dget r "actor")) := by
    unfold pairsBlock
    rw [hflE "notAttending" (by decide)]
    exact entriesFor_filter "rsvp-no" "notAttending" (by decide) (by decide)
      rsvps hcov
  have hb3 : pairsBlock ev' "rsvp-maybe" "maybeAttending" =
      (rsvps.filter (fun r =>
        decide (dget r "verb" = some (AVal.s "rsvp-maybe")))).map
        (fun r => (dget r "verb", dget r "actor")) := by
    unfold pairsBlock
    rw [hflE "maybeAttending" (by decide)]
    exact entriesFor_filter "rsvp-maybe" "maybeAttending" (by decide)
      (by decide) rsvps hcov
  have hb4 : pairsBlock ev' "rsvp-interested" "interested" =
      (rsvps.filter (fun r =>
        decide (dget r "verb" = some (AVal.s "rsvp-interested")))).map
        (fun r => (dget r "verb", dget r "actor")) := by
    unfold pairsBlock
    rw [hflE "interested" (by decide)]
    exact entriesFor_filter "rsvp-interested" "interested" (by decide)
      (by decide) rsvps hcov
  have hb5 : invitePairs ev' = [] := by
    unfold invitePairs
    rw [hflE "invited" (by decide), entriesFor_invited_nil rsvps hverbcov]
    rfl
  have hexcl : ∀ r ∈ rsvps,
      ((fun r => decide (dget r "verb" = some (AVal.s "rsvp-yes"))) r = true ∨
       (fun r => decide (dget r "verb" = some (AVal.s "rsvp-no"))) r = true ∨
       (fun r => decide (dget r "verb" = some (AVal.s "rsvp-maybe"))) r = true ∨
       (fun r => decide (dget r "verb" = some (AVal.s "rsvp-interested"))) r
         = true) ∧
      ((fun r => decide (dget r "verb" = some (AVal.s "rsvp-yes"))) r = true →
       (fun r => decide (dget r "verb" = some (AVal.s "rsvp-no"))) r = false ∧
       (fun r => decide (dget r "verb" = some (AVal.s "rsvp-maybe"))) r
         = false ∧
       (fun r => decide (dget r "verb" = some (AVal.s "rsvp-interested"))) r
         = false) ∧
      ((fun r => decide (dget r "verb" = some (AVal.s "rsvp-no"))) r = true →
       (fun r => decide (dget r "verb" = some (AVal.s "rsvp-yes"))) r = false ∧
       (fun r => decide (dget r "verb" = some (AVal.s "rsvp-maybe"))) r
         = false ∧
       (fun r => decide (dget r "verb" = some (AVal.s "rsvp-interested"))) r
         = false) ∧
      ((fun r => decide (dget r "verb" = some (AVal.s "rsvp-maybe"))) r
         = true →
       (fun r => decide (dget r "verb" = some (AVal.s "rsvp-yes"))) r = false ∧
       (fun r => decide (dget r "verb" = some (AVal.s "rsvp-no"))) r = false ∧
       (fun r => decide (dget r "verb" = some (AVal.s "rsvp-interested"))) r
         = false) ∧
      ((fun r => decide (dget r "verb" = some (AVal.s "rsvp-interested"))) r
         = true →
       (fun r => decide (dget r "verb" = some (AVal.s "rsvp-yes"))) r = false ∧
       (fun r => decide (dget r "verb" = some (AVal.s "rsvp-no"))) r = false ∧
       (fun r => decide (dget r "verb" = some (AVal.s "rsvp-maybe"))) r
         = false) := by
    intro r hrm
    obtain ⟨x, hverb, hx⟩ := hverbcov r hrm
    simp only [fourVerbs, List.mem_cons, List.not_mem_nil, or_false] at hx
    rcases hx with rfl | rfl | rfl | rfl <;>
      refine ⟨?_, ?_, ?_, ?_, ?_⟩ <;> simp [hverb]
  have hperm := perm_partition4
    (fun r => decide (dget r "verb" = some (AVal.s "rsvp-yes")))
    (fun r => decide (dget r "verb" = some (AVal.s "rsvp-no")))
    (fun r => decide (dget r "verb" = some (AVal.s "rsvp-maybe")))
    (fun r => decide (dget r "verb" = some (AVal.s "rsvp-interested")))
    rsvps hexcl
  refine ⟨ev', out, hok, hgok, ?_⟩
  rw [hgmap, hb1, hb2, hb3, hb4, hb5]
  simp only [List.append_nil, List.append_assoc]
  rw [← List.map_append, ← List.map_append, ← List.map_append]
  exact List.Perm.map (fun r => (dget r "verb", dget r "actor")) hperm

/-- Witness for the amended C1 at a concrete event and RSVP batch (two
attendance verbs given out of order). -/
theorem c1_witness :
    ∃ (ev' : Dict) (out : List AVal),
      add_rsvps_to_event [("id", AVal.s "tag:x:1")]
        [[("verb", AVal.s "rsvp-no"),
          ("actor", AVal.d [("id", AVal.s "tag:x:a")])],
         [("verb", AVal.s "rsvp-yes"),
          ("actor", AVal.d [("id", AVal.s "tag:x:b")])]] = .ok ev' ∧
      get_rsvps_from_event ev' = .ok out ∧
      (out.map rsvpPair).Perm
        ([[("verb", AVal.s "rsvp-no"),
           ("actor", AVal.d [("id", AVal.s "tag:x:a")])],
          [("verb", AVal.s "rsvp-yes"),
           ("actor", AVal.d [("id", AVal.s "tag:x:b")])]].map
          (fun r => (dget r "verb", dget r "actor"))) := by
  refine c1_round_trip_amended [("id", AVal.s "tag:x:1")] _ "tag:x:1" "x" "1"
    (by decide) (by decide) (Or.inl (by decide)) (by decide) ?_
  intro r hrm
  simp only [List.mem_cons, List.not_mem_nil, or_false] at hrm
  rcases hrm with rfl | rfl
  · exact ⟨"rsvp-no", [("id", AVal.s "tag:x:a")], "tag:x:a", "x", "a",
      rfl, by decide, rfl, rfl, by decide⟩
  · exact ⟨"rsvp-yes", [("id", AVal.s "tag:x:b")], "tag:x:b", "x", "b",
      rfl, by decide, rfl, rfl, by decide⟩

theorem plookup_append_right {m m2 : List (AVal × AVal)} {k : AVal}
    (h : ∀ p ∈ m, (p.1 == k) = false) :
    plookup (m ++ m2) k = plookup m2 k := by
  induction m with
  | nil => rfl
  | cons p rest ih =>
      simp only [List.cons_append, plookup, h p (by simp), Bool.false_eq_true,
        if_false]
      exact ih (fun q hq => h q (by simp [hq]))

theorem plookup_map_set {k v : AVal} :
    ∀ m : List (AVal × AVal), m.any (fun p => p.1 == k) = true →
    plookup (m.map (fun p => if p.1 == k then (k, v) else p)) k = some v := by
  intro m
  induction m with
  | nil => intro h; simp at h
  | cons p rest ih =>
      intro hany
      cases hb : (p.1 == k) with
      | true =>
          simp only [List.map_cons, hb, if_true, plookup, beq_self_eq_true]
      | false =>
          have hrest : rest.any (fun p => p.1 == k) = true := by
            simp only [List.any_cons, hb, Bool.false_or] at hany
            exact hany
          simp only [List.map_cons, hb, Bool.false_eq_true, if_false, plookup]
          exact ih hrest

theorem pmap_set_id {k v : AVal} :
    ∀ m : List (AVal × AVal), m.any (fun p => p.1 == k) = false →
    m.map (fun p => if p.1 == k then (k, v) else p) = m := by
  intro m
  induction m with
  | nil => intro _; rfl
  | cons p rest ih =>
      intro h
      simp only [List.any_cons, Bool.or_eq_false_iff] at h
      simp only [List.map_cons, h.1, Bool.false_eq_true, if_false]
      rw [ih h.2]

theorem plookup_pdictSet_self (m : List (AVal × AVal)) (k v : AVal) :
    plookup (pdictSet m k v) k = some v := by
  unfold pdictSet
  cases hany : m.any (fun p => p.1 == k) with
  | true =>
      simp only [if_true]
      exact plookup_map_set m hany
  | false =>
      simp only [Bool.false_eq_true, if_false]
      rw [plookup_append_right (fun p hp => by
        rw [List.any_eq_false] at hany
        simpa using hany p hp)]
      simp [plookup]

theorem plookup_map_set_ne {k k' v : AVal} (h : ¬k' = k) :
    ∀ m : List (AVal × AVal),
    plookup (m.map (fun p => if p.1 == k then (k, v) else p)) k' =
      plookup m k' := by
  intro m
  induction m with
  | nil => rfl
  | cons p rest ih =>
      cases hb : (p.1 == k) with
      | true =>
          have hpk : p.1 = k := by rw [beq_iff_eq] at hb; exact hb
          have hk1 : (k == k') = false := by
            rw [beq_eq_false_iff_ne]
            intro hc
            exact h hc.symm
          have hk2 : (p.1 == k') = false := by rw [hpk]; exact hk1
          simp only [List.map_cons, hb, if_true, plookup, hk1, hk2,
            Bool.false_eq_true, if_false]
          exact ih
      | false =>
          simp only [List.map_cons, hb, Bool.false_eq_true, if_false, plookup]
          cases hb2 : (p.1 == k') with
          | true => rfl
          | false =>
              simp only [Bool.false_eq_true, if_false]
              exact ih

theorem plookup_append_single_ne {k k' v : AVal} (h : ¬k' = k) :
    ∀ m : List (AVal × AVal), plookup (m ++ [(k, v)]) k' = plookup m k' := by
  intro m
  induction m with
  | nil =>
      simp only [List.nil_append, plookup]
      have hk1 : (k == k') = false := by
        rw [beq_eq_false_iff_ne]
        intro hc
        exact h hc.symm
      simp only [hk1, Bool.false_eq_true, if_false]
  | cons p rest ih =>
      simp only [List.cons_append, plookup]
      cases hb2 : (p.1 == k') with
      | true => rfl
      | false =>
          simp only [Bool.false_eq_true, if_false]
          exact ih

theorem plookup_pdictSet_ne (m : List (AVal × AVal)) (k k' v : AVal)
    (h : ¬k' = k) :
    plookup (pdictSet m k v) k' = plookup m k' := by
  unfold pdictSet
  cases hany : m.any (fun p => p.1 == k) with
  | true =>
      simp only [if_true]
      exact plookup_map_set_ne h m
  | false =>
      simp only [Bool.false_eq_true, if_false]
      exact plookup_append_single_ne h m

theorem pdictSet_keys_nodup {m : List (AVal × AVal)} {k v : AVal}
    (h : (m.map Prod.fst).Nodup) :
    ((pdictSet m k v).map Prod.fst).Nodup := by
  unfold pdictSet
  cases hany : m.any (fun p => p.1 == k) with
  | true =>
      simp only [if_true, List.map_map]
      have he : m.map (Prod.fst ∘ fun p => if p.1 == k then (k, v) else p) =
          m.map Prod.fst := by
        refine List.map_congr_left (fun p hp => ?_)
        simp only [Function.comp]
        cases hb : (p.1 == k) with
        | true =>
            simp only [if_true]
            rw [beq_iff_eq] at hb
            exact hb.symm
        | false => simp only [Bool.false_eq_true, if_false]
      rw [he]
      exact h
  | false =>
      simp only [Bool.false_eq_true, if_false, List.map_append, List.map_cons,
        List.map_nil]
      rw [List.nodup_append]
      refine ⟨h, List.nodup_singleton k, ?_⟩
      intro x hx hx2
      simp only [List.mem_singleton] at hx2
      subst hx2
      rw [List.mem_map] at hx
      obtain ⟨p, hp, hpx⟩ := hx
      rw [List.any_eq_false] at hany
      have := hany p hp
      rw [hpx] at this
      simp at this

theorem pdictSet_forall {P : AVal × AVal → Prop} {m : List (AVal × AVal)}
    {k v : AVal} (hm : ∀ p ∈ m, P p) (hkv : P (k, v)) :
    ∀ p ∈ pdictSet m k v, P p := by
  intro p hp
  unfold pdictSet at hp
  cases hany : m.any (fun q => q.1 == k) with
  | true =>
      simp only [hany, if_true] at hp
      rw [List.mem_map] at hp
      obtain ⟨q, hq, hqp⟩ := hp
      cases hb : (q.1 == k) with
      | true =>
          simp only [hb, if_true] at hqp
          rw [← hqp]
          exact hkv
      | false =>
          rw [hb] at hqp
          simp only [Bool.false_eq_true, if_false] at hqp
          rw [← hqp]
          exact hm q hq
  | false =>
      rw [hany] at hp
      simp only [Bool.false_eq_true, if_false] at hp
      rw [List.mem_append] at hp
      rcases hp with hp | hp
      · exact hm p hp
      · simp only [List.mem_singleton] at hp
        rw [hp]
        exact hkv

theorem pfold_plookup :
    ∀ (items : List AVal) (m : List (AVal × AVal)) (k : AVal),
    plookup (pfold items m) k =
      (match lwFindA items k with
       | some x => some x
       | none => plookup m k) := by
  intro items
  induction items with
  | nil => intro m k; rfl
  | cons o rest ih =>
      intro m k
      simp only [pfold, lwFindA]
      rw [ih]
      cases hl : lwFindA rest k with
      | some x => rfl
      | none =>
          simp only []
          by_cases hk : k = idAv o
          · subst hk
            rw [plookup_pdictSet_self]
            simp [beq_self_eq_true]
          · rw [plookup_pdictSet_ne _ _ _ _ hk]
            have hb : (idAv o == k) = false := by
              rw [beq_eq_false_iff_ne]
              intro hc
              exact hk hc.symm
            rw [hb]
            simp

theorem pfold_keys_nodup :
    ∀ (items : List AVal) (m : List (AVal × AVal)),
    (m.map Prod.fst).Nodup → ((pfold items m).map Prod.fst).Nodup := by
  intro items
  induction items with
  | nil => intro m h; exact h
  | cons o rest ih =>
      intro m h
      exact ih _ (pdictSet_keys_nodup h)

theorem pfold_forall {P : AVal × AVal → Prop} :
    ∀ (items : List AVal) (m : List (AVal × AVal)),
    (∀ p ∈ m, P p) → (∀ o ∈ items, P (idAv o, o)) →
    ∀ p ∈ pfold items m, P p := by
  intro items
  induction items with
  | nil => intro m hm _; exact hm
  | cons o rest ih =>
      intro m hm hi
      exact ih _ (pdictSet_forall hm (hi o (by simp)))
        (fun o2 ho2 => hi o2 (by simp [ho2]))

theorem plookup_eq_some_of_mem :
    ∀ {m : List (AVal × AVal)} {p : AVal × AVal},
    (m.map Prod.fst).Nodup → p ∈ m → plookup m p.1 = some p.2 := by
  intro m
  induction m with
  | nil => intro p _ hp; exact absurd hp (List.not_mem_nil p)
  | cons q rest ih =>
      intro p hnd hp
      simp only [List.map_cons, List.nodup_cons] at hnd
      rcases List.mem_cons.mp hp with rfl | hp2
      · simp [plookup, beq_self_eq_true]
      · have hne : (q.1 == p.1) = false := by
          rw [beq_eq_false_iff_ne]
          intro hc
          exact hnd.1 (hc ▸ List.mem_map_of_mem Prod.fst hp2)
        simp only [plookup, hne, Bool.false_eq_true, if_false]
        exact ih hnd.2 hp2

theorem mem_of_plookup_eq_some :
    ∀ {m : List (AVal × AVal)} {k v : AVal},
    plookup m k = some v → (k, v) ∈ m := by
  intro m
  induction m with
  | nil => intro k v h; exact absurd h (by simp [plookup])
  | cons q rest ih =>
      intro k v h
      simp only [plookup] at h
      cases hb : (q.1 == k) with
      | true =>
          simp only [hb, if_true] at h
          injection h with h2
          rw [beq_iff_eq] at hb
          have : (k, v) = q := by
            rw [← hb, ← h2]
          rw [this]
          exact List.mem_cons_self q rest
      | false =>
          rw [hb] at h
          simp only [Bool.false_eq_true, if_false] at h
          exact List.mem_cons_of_mem q (ih h)

theorem merge_foldlM_ok :
    ∀ (items : List AVal) (m : List (AVal × AVal)),
    (∀ o ∈ items, ∃ kvs idv, o = AVal.d kvs ∧ dget kvs "id" = some idv) →
    List.foldlM mergeStep m items = .ok (pfold items m) := by
  intro items
  induction items with
  | nil => intro m _; rfl
  | cons o rest ih =>
      intro m hitems
      obtain ⟨kvs, idv, rfl, hid⟩ := hitems o (by simp)
      rw [List.foldlM]
      have hstep : mergeStep m (AVal.d kvs) =
          .ok (pdictSet m idv (AVal.d kvs)) := by
        simp only [mergeStep, hid]
        rfl
      rw [hstep, ok_bind]
      have hida : idAv (AVal.d kvs) = idv := by
        simp only [idAv, hid]
      simp only [pfold, hida]
      exact ih _ (fun o2 ho2 => hitems o2 (by simp [ho2]))

theorem mapExc_keyStep :
    ∀ m : List (AVal × AVal), (∀ p ∈ m, ∃ x, p.1 = AVal.s x) →
    ∃ km : List (String × AVal), mapExc keyStep m = .ok km ∧
      km.map (fun q => (AVal.s q.1, q.2)) = m := by
  intro m
  induction m with
  | nil => intro _; exact ⟨[], rfl, rfl⟩
  | cons p rest ih =>
      intro hm
      obtain ⟨x, hx⟩ := hm p (by simp)
      obtain ⟨km, hok, hkm⟩ := ih (fun q hq => hm q (by simp [hq]))
      obtain ⟨p1, p2⟩ := p
      simp only [] at hx
      subst hx
      refine ⟨(x, p2) :: km, ?_, ?_⟩
      · simp only [mapExc, keyStep, pure_eq_ok, ok_bind, hok]
      · simp only [List.map_cons, hkm]

theorem lwFindA_eq_lwFind :
    ∀ items : List AVal,
    (∀ o ∈ items, ∃ kvs x, o = AVal.d kvs ∧ dget kvs "id" = some (AVal.s x)) →
    ∀ idv : String, lwFindA items (AVal.s idv) = lwFind items idv := by
  intro items
  induction items with
  | nil => intro _ idv; rfl
  | cons o rest ih =>
      intro hitems idv
      obtain ⟨kvs, x, rfl, hid⟩ := hitems o (by simp)
      simp only [lwFindA, lwFind]
      rw [ih (fun o2 ho2 => hitems o2 (by simp [ho2])) idv]
      cases hl : lwFind rest idv with
      | some y => rfl
      | none =>
          have h1 : idAv (AVal.d kvs) = AVal.s x := by
            simp only [idAv, hid]
          have h2 : itemId (AVal.d kvs) = x := by
            simp only [itemId, hid]
          simp only [h1, h2]
          by_cases hxi : x = idv
          · subst hxi
            simp
          · have hba : (AVal.s x == AVal.s idv) = false := by
              rw [beq_eq_false_iff_ne]
              intro hc
              injection hc with hc2
              exact hxi hc2
            have hbs : (x == idv) = false := by
              rw [beq_eq_false_iff_ne]
              exact hxi
            rw [hba, hbs]

theorem lwFind_eq_find_rev :
    ∀ (items : List AVal) (idv : String),
    items.reverse.find? (fun x => itemId x == idv) = lwFind items idv := by
  intro items
  induction items with
  | nil => intro idv; rfl
  | cons o rest ih =>
      intro idv
      rw [List.reverse_cons, List.find?_append, ih]
      simp only [lwFind]
      cases hl : lwFind rest idv with
      | some y => simp
      | none =>
          simp only [Option.none_or]
          cases hp : (itemId o == idv) with
          | true => simp [List.find?_cons, hp]
          | false => simp [List.find?_cons, hp]

/-- C4: merge_by_id concatenates obj[field] (absent meaning empty) and new,
keys the items by id with last-write-wins in existing-then-new order (so a
new element wins over an existing one with the same id), and replaces
obj[field] in place with the values sorted lexicographically by id, leaving
every other field unchanged.  Stated for a field that is absent or a list
and items that are records with string ids: the result is the list whose
ids are sorted and duplicate-free, and an item o with id idv is in the
result exactly when o is the last item with id idv in the concatenation. -/
theorem c4_merge_by_id (obj : Dict) (field : String) (new : List AVal)
    (holds : dget obj field = none ∨ ∃ vs, dget obj field = some (AVal.l vs))
    (hitems : ∀ o ∈ fieldList obj field ++ new,
      ∃ kvs x, o = AVal.d kvs ∧ dget kvs "id" = some (AVal.s x)) :
    ∃ vals : List AVal,
      merge_by_id obj field new = .ok (dset obj field (AVal.l vals)) ∧
      dget (dset obj field (AVal.l vals)) field = some (AVal.l vals) ∧
      (∀ k, ¬k = field →
        dget (dset obj field (AVal.l vals)) k = dget obj k) ∧
      (vals.map itemId).Sorted (· ≤ ·) ∧
      (vals.map itemId).Nodup ∧
      (∀ (idv : String) (o : AVal), (o ∈ vals ∧ itemId o = idv) ↔
        (fieldList obj field ++ new).reverse.find?
          (fun a => itemId a == idv) = some o) := by
  have holdse : merge_olds obj field = .ok (fieldList obj field) := by
    unfold merge_olds
    rcases holds with h | ⟨vs, h⟩
    · rw [h]
      have hz : fieldList obj field = [] := by
        unfold fieldList
        rw [h]
      rw [hz]
      rfl
    · rw [h]
      have hz : fieldList obj field = vs := by
        unfold fieldList
        rw [h]
      rw [hz]
      rfl
  have hweak : ∀ o ∈ fieldList obj field ++ new,
      ∃ kvs idv, o = AVal.d kvs ∧ dget kvs "id" = some idv := by
    intro o ho
    obtain ⟨kvs, x, rfl, hid⟩ := hitems o ho
    exact ⟨kvs, AVal.s x, rfl, hid⟩
  have hfold := merge_foldlM_ok (fieldList obj field ++ new) [] hweak
  have hnd : ((pfold (fieldList obj field ++ new) []).map Prod.fst).Nodup :=
    pfold_keys_nodup _ [] (by simp)
  have hPm : ∀ p ∈ pfold (fieldList obj field ++ new) [],
      ∃ kvs x, p.2 = AVal.d kvs ∧ dget kvs "id" = some (AVal.s x) ∧
        p.1 = AVal.s x := by
    refine pfold_forall _ [] (fun p hp => absurd hp (List.not_mem_nil p)) ?_
    intro o ho
    obtain ⟨kvs, x, rfl, hid⟩ := hitems o ho
    exact ⟨kvs, x, rfl, hid, by simp only [idAv, hid]⟩
  have hkeys : ∀ p ∈ pfold (fieldList obj field ++ new) [],
      ∃ x, p.1 = AVal.s x := by
    intro p hp
    obtain ⟨kvs, x, _, _, h1⟩ := hPm p hp
    exact ⟨x, h1⟩
  obtain ⟨km, hkok, hkm⟩ := mapExc_keyStep _ hkeys
  have hpl : ∀ k, plookup (pfold (fieldList obj field ++ new) []) k =
      lwFindA (fieldList obj field ++ new) k := by
    intro k
    rw [pfold_plookup]
    cases lwFindA (fieldList obj field ++ new) k <;> rfl
  have hperm := List.perm_insertionSort
    (fun x y : String × AVal => x.1 ≤ y.1) km
  have hsorted := List.sorted_insertionSort
    (fun x y : String × AVal => x.1 ≤ y.1) km
  have hmm : ∀ q ∈ km.insertionSort (fun x y => x.1 ≤ y.1),
      itemId q.2 = q.1 := by
    intro q hq
    have hq2 : q ∈ km := hperm.subset hq
    have hmem : (AVal.s q.1, q.2) ∈ pfold (fieldList obj field ++ new) [] := by
      rw [← hkm]
      exact List.mem_map_of_mem _ hq2
    obtain ⟨kvs, x, h2, hid2, h1⟩ := hPm _ hmem
    simp only [] at h2 h1
    injection h1 with h1s
    rw [h2]
    simp only [itemId, hid2, h1s]
  have hmape : ((km.insertionSort (fun x y => x.1 ≤ y.1)).map
      (fun p => p.2)).map itemId =
      (km.insertionSort (fun x y => x.1 ≤ y.1)).map Prod.fst := by
    rw [List.map_map]
    exact List.map_congr_left (fun q hq => hmm q hq)
  refine ⟨(km.insertionSort (fun x y => x.1 ≤ y.1)).map (fun p => p.2),
    ?_, dget_dset_self obj field _, fun k hk => dget_dset_ne obj field k _ hk,
    ?_, ?_, ?_⟩
  · unfold merge_by_id
    simp only []
    rw [holdse]
    simp only [ok_bind]
    rw [hfold]
    simp only [ok_bind]
    rw [hkok]
    simp only [ok_bind]
    rfl
  · rw [hmape]
    exact List.Pairwise.map Prod.fst (fun a c hab => hab) hsorted
  · rw [hmape]
    have hfst : (pfold (fieldList obj field ++ new) []).map Prod.fst =
        (km.map Prod.fst).map AVal.s := by
      rw [← hkm, List.map_map, List.map_map]
      rfl
    have hnd2 : (km.map Prod.fst).Nodup := by
      refine List.Nodup.of_map AVal.s ?_
      rw [← hfst]
      exact hnd
    exact ((hperm.map Prod.fst).nodup_iff).mpr hnd2
  · intro idv o
    constructor
    · rintro ⟨ho, hio⟩
      obtain ⟨q, hq, rfl⟩ := List.mem_map.mp ho
      have hq2 : q ∈ km := hperm.subset hq
      have hmem : (AVal.s q.1, q.2) ∈
          pfold (fieldList obj field ++ new) [] := by
        rw [← hkm]
        exact List.mem_map_of_mem _ hq2
      have hl : plookup (pfold (fieldList obj field ++ new) [])
          (AVal.s q.1) = some q.2 := plookup_eq_some_of_mem hnd hmem
      rw [hpl] at hl
      have hq1 : q.1 = idv := by
        rw [← hio]
        exact (hmm q hq).symm
      rw [lwFind_eq_find_rev, ← lwFindA_eq_lwFind _ hitems idv, ← hq1]
      exact hl
    · intro hf
      rw [lwFind_eq_find_rev, ← lwFindA_eq_lwFind _ hitems idv,
        ← hpl (AVal.s idv)] at hf
      have hmem := mem_of_plookup_eq_some hf
      rw [← hkm] at hmem
      obtain ⟨q, hq, hql⟩ := List.mem_map.mp hmem
      rw [Prod.mk.injEq] at hql
      obtain ⟨hql1, hql2⟩ := hql
      injection hql1 with hq1
      have hqs : q ∈ km.insertionSort (fun x y => x.1 ≤ y.1) :=
        hperm.mem_iff.mpr hq
      constructor
      · rw [← hql2]
        exact List.mem_map_of_mem _ hqs
      · rw [← hql2, hmm q hqs]
        exact hq1

/-- Witness for C4 at the spec's example: existing id 2 merged with new
ids 1 and 2; the new record for id 2 wins and the result is sorted. -/
theorem c4_witness :
    ∃ vals : List AVal,
      merge_by_id [("f", AVal.l [AVal.d [("id", AVal.s "2"),
          ("v", AVal.s "old")]])] "f"
        [AVal.d [("id", AVal.s "1"), ("v", AVal.s "new1")],
         AVal.d [("id", AVal.s "2"), ("v", AVal.s "new2")]] =
        .ok (dset [("f", AVal.l [AVal.d [("id", AVal.s "2"),
          ("v", AVal.s "old")]])] "f" (AVal.l vals)) ∧
      dget (dset [("f", AVal.l [AVal.d [("id", AVal.s "2"),
          ("v", AVal.s "old")]])] "f" (AVal.l vals)) "f" =
        some (AVal.l vals) ∧
      (∀ k, ¬k = "f" →
        dget (dset [("f", AVal.l [AVal.d [("id", AVal.s "2"),
          ("v", AVal.s "old")]])] "f" (AVal.l vals)) k =
        dget [("f", AVal.l [AVal.d [("id", AVal.s "2"),
          ("v", AVal.s "old")]])] k) ∧
      (vals.map itemId).Sorted (· ≤ ·) ∧
      (vals.map itemId).Nodup ∧
      (∀ (idv : String) (o : AVal), (o ∈ vals ∧ itemId o = idv) ↔
        (fieldList [("f", AVal.l [AVal.d [("id", AVal.s "2"),
            ("v", AVal.s "old")]])] "f" ++
          [AVal.d [("id", AVal.s "1"), ("v", AVal.s "new1")],
           AVal.d [("id", AVal.s "2"), ("v", AVal.s "new2")]]).reverse.find?
          (fun a => itemId a == idv) = some o) := by
  refine c4_merge_by_id _ "f" _ (Or.inr ⟨_, rfl⟩) ?_
  intro o ho
  have he : fieldList [("f", AVal.l [AVal.d [("id", AVal.s "2"),
      ("v", AVal.s "old")]])] "f" ++
      [AVal.d [("id", AVal.s "1"), ("v", AVal.s "new1")],
       AVal.d [("id", AVal.s "2"), ("v", AVal.s "new2")]] =
      [AVal.d [("id", AVal.s "2"), ("v", AVal.s "old")],
       AVal.d [("id", AVal.s "1"), ("v", AVal.s "new1")],
       AVal.d [("id", AVal.s "2"), ("v", AVal.s "new2")]] := rfl
  rw [he] at ho
  simp only [List.mem_cons, List.not_mem_nil, or_false] at ho
  rcases ho with rfl | rfl | rfl
  · exact ⟨[("id", AVal.s "2"), ("v", AVal.s "old")], "2", rfl, rfl⟩
  · exact ⟨[("id", AVal.s "1"), ("v", AVal.s "new1")], "1", rfl, rfl⟩
  · exact ⟨[("id", AVal.s "2"), ("v", AVal.s "new2")], "2", rfl, rfl⟩

theorem opd_kept_sound :
    ∀ (cands : List AVal) (acc kept : List String),
    List.foldlM opd_kept_step acc cands = .ok kept →
    ∀ u ∈ kept, u ∈ acc ∨ opd_keep u = true := by
  intro cands
  induction cands with
  | nil =>
      intro acc kept h u hu
      rw [List.foldlM] at h
      rw [pure_eq_ok] at h
      injection h with h2
      exact Or.inl (h2 ▸ hu)
  | cons v rest ih =>
      intro acc kept h u hu
      rw [List.foldlM] at h
      cases ht : truthy v with
      | false =>
          have hstep : opd_kept_step acc v = .ok acc := by
            unfold opd_kept_step
            rw [ht]
            rfl
          rw [hstep, ok_bind] at h
          exact ih acc kept h u hu
      | true =>
          cases hstep : opd_kept_step acc v with
          | error e =>
              rw [hstep, error_bind] at h
              exact absurd h (by simp)
          | ok acc2 =>
              rw [hstep, ok_bind] at h
              unfold opd_kept_step at hstep
              rw [ht] at hstep
              simp only [Bool.not_true, Bool.false_eq_true, if_false] at hstep
              split at hstep
              · injection hstep with hacc2
                rename_i u2
                cases hk : opd_keep u2 with
                | true =>
                    rw [hk] at hacc2
                    simp only [if_true] at hacc2
                    subst hacc2
                    rcases ih _ kept h u hu with hin | hkeep
                    · rcases List.mem_append.mp hin with h1 | h1
                      · exact Or.inl h1
                      · simp only [List.mem_singleton] at h1
                        subst h1
                        exact Or.inr hk
                    · exact Or.inr hkeep
                | false =>
                    rw [hk] at hacc2
                    simp only [Bool.false_eq_true, if_false] at hacc2
                    subst hacc2
                    exact ih _ kept h u hu
              · exact absurd hstep (by simp)

/-- C2 counterexample: a permashortcitation whose rewritten URL ends in an
ellipsis is dropped by the filter, so original_post_discovery returns two
empty sets; were permashortcitations exempt, http://foo.com/bar... would
be kept. -/
theorem c2_counterexample :
    matchPSC "see (foo.com bar...)" = some ("foo.com", "bar...") ∧
    original_post_discovery [("content", AVal.s "see (foo.com bar...)")]
      none true true none (fun u => (u, "")) = .ok ([], []) := ⟨rfl, rfl⟩

/-- C2 (amended): permashortcitation URLs are merged into the candidate
list BEFORE the ellipsis-truncation filter is applied — the candidate list
ends with them — so they are subject to that filter like every other
candidate: no candidate surviving the filter ends in an ellipsis.  A
permashortcitation whose rewritten URL ends in '...' or '…' is therefore
dropped, not kept. -/
theorem c2_psc_not_exempt :
    (∀ (activity obj : Dict) (content : String) (cands : List AVal),
      opd_obj_dict activity = .ok obj →
      opd_content_of obj = .ok content →
      opd_candidates activity = .ok cands →
      ∃ pre, cands = pre ++ (psc_urls content).map AVal.s) ∧
    (∀ (cands : List AVal) (kept : List String),
      opd_kept cands = .ok kept →
      ∀ u ∈ kept, strEndsWith u "..." = false ∧ strEndsWith u "…" = false) := by
  constructor
  · intro activity obj content cands hobj hcontent hc
    unfold opd_candidates at hc
    rw [hobj, ok_bind, hcontent, ok_bind] at hc
    cases ht : opd_tag_urls obj with
    | error e =>
        rw [ht, error_bind] at hc
        exact absurd hc (by simp)
    | ok tagUrls =>
        rw [ht, ok_bind] at hc
        cases hup : opd_ups obj with
        | error e =>
            rw [hup, error_bind] at hc
            exact absurd hc (by simp)
        | ok ups =>
            rw [hup, ok_bind] at hc
            simp only [pure_eq_ok] at hc
            injection hc with hc2
            exact ⟨_, hc2.symm⟩
  · intro cands kept hk u hu
    rcases opd_kept_sound cands [] kept hk u hu with hin | hkeep
    · exact absurd hin (List.not_mem_nil u)
    · unfold opd_keep at hkeep
      simp only [Bool.and_eq_true, Bool.not_eq_true'] at hkeep
      exact ⟨hkeep.1.2, hkeep.2⟩

/-- Witness for the amended C2: the candidate-list suffix at a concrete
activity with a (non-ellipsized) permashortcitation, and the filter fact at
a concrete kept url. -/
theorem c2_witness :
    (∃ pre : List AVal, [AVal.s "http://foo.com/bar/baz"] =
      pre ++ (psc_urls "(foo.com bar/baz)").map AVal.s) ∧
    (strEndsWith "http://a.com/x" "..." = false ∧
      strEndsWith "http://a.com/x" "…" = false) :=
  ⟨c2_psc_not_exempt.1 [("content", AVal.s "(foo.com bar/baz)")]
      [("content", AVal.s "(foo.com bar/baz)")] "(foo.com bar/baz)"
      [AVal.s "http://foo.com/bar/baz"] rfl rfl rfl,
    c2_psc_not_exempt.2 [AVal.s "http://a.com/x"] ["http://a.com/x"] rfl
      "http://a.com/x" (by decide)⟩

/-- C7 counterexample: the content's raw link http://a.com/b... ends in an
ellipsis, yet it appears in the originals set, because upstreamDuplicates
carries a utm_-tagged variant that survives the filter and is then cleaned
back to the ellipsized URL. -/
theorem c7_counterexample :
    "http://a.com/b..." ∈ extract_links "see http://a.com/b..." ∧
    strEndsWith "http://a.com/b..." "..." = true ∧
    original_post_discovery [("content", AVal.s "see http://a.com/b..."),
      ("upstreamDuplicates", AVal.l [AVal.s "http://a.com/b...?utm_a=1"])]
      none true true none (fun u => (u, "")) =
      .ok (["http://a.com/b..."], []) := ⟨by decide, rfl, rfl⟩

/-- C7 (amended): on the activity whose object has content
"see (example.com/x)" and no other link-bearing fields, with domains absent
and no redirects (every fetch resolves to itself),
original_post_discovery returns exactly the originals
{http://example.com/x} and no mentions; and raw ellipsis-ending links never
survive the candidate filter (no kept candidate ends in '...' or '…') —
though an equal URL can still reach the output sets via the cleaning of a
different, non-ellipsized candidate (see the counterexample). -/
theorem c7_opd_amended :
    (∀ follow : String → String × String, (∀ u, (follow u).1 = u) →
      original_post_discovery [("object", AVal.d [("content",
          AVal.s "see (example.com/x)")])] none true true none follow =
        .ok (["http://example.com/x"], [])) ∧
    (∀ (cands : List AVal) (kept : List String),
      opd_kept cands = .ok kept →
      ∀ u ∈ kept, strEndsWith u "..." = false ∧ strEndsWith u "…" = false) := by
  constructor
  · intro follow hf
    unfold original_post_discovery
    have hc : opd_candidates [("object", AVal.d [("content",
        AVal.s "see (example.com/x)")])] =
        .ok [AVal.s "http://example.com/x"] := rfl
    have hcl : opd_cleaned [AVal.s "http://example.com/x"] =
        .ok ["http://example.com/x"] := rfl
    rw [hc, ok_bind, hcl, ok_bind]
    simp only []
    have hr : opd_redirects follow ["http://example.com/x"] = [] := by
      unfold opd_redirects
      rw [List.foldl_cons, List.foldl_nil]
      have h1 : (follow "http://example.com/x").1 = "http://example.com/x" :=
        hf _
      simp [h1]
    rw [hr]
    rfl
  · intro cands kept hk u hu
    rcases opd_kept_sound cands [] kept hk u hu with hin | hkeep
    · exact absurd hin (List.not_mem_nil u)
    · unfold opd_keep at hkeep
      simp only [Bool.and_eq_true, Bool.not_eq_true'] at hkeep
      exact ⟨hkeep.1.2, hkeep.2⟩

/-- Witness for the amended C7 at a concrete no-redirect fetcher and a
concrete kept url. -/
theorem c7_witness :
    original_post_discovery [("object", AVal.d [("content",
        AVal.s "see (example.com/x)")])] none true true none
      (fun u => (u, "text/html")) = .ok (["http://example.com/x"], []) ∧
    (strEndsWith "http://e.com/p" "..." = false ∧
      strEndsWith "http://e.com/p" "…" = false) :=
  ⟨c7_opd_amended.1 (fun u => (u, "text/html")) (fun _ => rfl),
    c7_opd_amended.2 [AVal.s "http://e.com/p"] ["http://e.com/p"] rfl
      "http://e.com/p" (by decide)⟩

/-- Witness for C10 at a concrete input. -/
theorem c10_witness :
    append_in_reply_to [("object", .d [("inReplyTo", .l [.s "http://r"])])]
      [("object", .s "someid")] = .ok [("object", .s "someid")] :=
  c10_append_in_reply_to_string_object_noop _ _ "someid" (by decide)
    (by decide) (fun _ => ⟨[("inReplyTo", .l [.s "http://r"])], by decide⟩)

end AS1
